import Mathlib

/-!
Verification of the TikTok subtitle toolkit (subs_toolkit.py, Python-Standalone/subs_toolkit.py,
Streamlit/app.py) against its natural-language specification.

The Python code is shallowly embedded: JSON values become an inductive type, dictionary
accesses become total functions over that type, Python exceptions become an explicit
`Except String` channel, and the single outbound HTTP request per work unit is modelled
by an oracle `Net : Json → FetchOutcome` together with an explicit log of the URLs that
were fetched.  Wall-clock time is a parameter `now : Int` (the code compares the integer
`UrlExpire` against `time.time()`; all claims concern whole-second boundaries).

Abstractions, stated once here: Unicode-only details of Python (`str.lower` beyond ASCII,
exotic Unicode whitespace in `str.strip`, non-ASCII decimal digits in the regex `\d`) are
restricted to their ASCII behaviour; the text of `str(e)` for `requests` exceptions is
abstracted by a fixed rendering (no claim inspects those strings); Python's numeric
cross-type equality (True == 1) is not exercised by any record field compared here, so
`==` on embedded JSON values is structural equality; file-system writes (tree mode) are
side effects that no claim observes and are not modelled.
-/

/-- A JSON value as produced by `json.loads` on one NDJSON line.  Object entries keep
insertion order, as Python dictionaries do.  Numbers are restricted to integers (the
only numeric fields the tool reads are epoch seconds and ids). -/
inductive Json where
  | null : Json
  | bool (b : Bool) : Json
  | num (n : Int) : Json
  | str (s : String) : Json
  | arr (elems : List Json) : Json
  | obj (entries : List (String × Json)) : Json

mutual

/-- Structural decidable equality for `Json` (the deriving handler does not support the
nested occurrence of `Json` under `List`). -/
def Json.decEq : (a b : Json) → Decidable (a = b)
  | Json.null, Json.null => isTrue rfl
  | Json.bool a, Json.bool b =>
      match Bool.decEq a b with
      | isTrue h => isTrue (h ▸ rfl)
      | isFalse h => isFalse (fun hh => h (Json.bool.inj hh))
  | Json.num a, Json.num b =>
      match Int.decEq a b with
      | isTrue h => isTrue (h ▸ rfl)
      | isFalse h => isFalse (fun hh => h (Json.num.inj hh))
  | Json.str a, Json.str b =>
      match String.decEq a b with
      | isTrue h => isTrue (h ▸ rfl)
      | isFalse h => isFalse (fun hh => h (Json.str.inj hh))
  | Json.arr xs, Json.arr ys =>
      match Json.decEqList xs ys with
      | isTrue h => isTrue (h ▸ rfl)
      | isFalse h => isFalse (fun hh => h (Json.arr.inj hh))
  | Json.obj xs, Json.obj ys =>
      match Json.decEqEntries xs ys with
      | isTrue h => isTrue (h ▸ rfl)
      | isFalse h => isFalse (fun hh => h (Json.obj.inj hh))
  | Json.null, Json.bool _ => isFalse (fun h => Json.noConfusion h)
  | Json.null, Json.num _ => isFalse (fun h => Json.noConfusion h)
  | Json.null, Json.str _ => isFalse (fun h => Json.noConfusion h)
  | Json.null, Json.arr _ => isFalse (fun h => Json.noConfusion h)
  | Json.null, Json.obj _ => isFalse (fun h => Json.noConfusion h)
  | Json.bool _, Json.null => isFalse (fun h => Json.noConfusion h)
  | Json.bool _, Json.num _ => isFalse (fun h => Json.noConfusion h)
  | Json.bool _, Json.str _ => isFalse (fun h => Json.noConfusion h)
  | Json.bool _, Json.arr _ => isFalse (fun h => Json.noConfusion h)
  | Json.bool _, Json.obj _ => isFalse (fun h => Json.noConfusion h)
  | Json.num _, Json.null => isFalse (fun h => Json.noConfusion h)
  | Json.num _, Json.bool _ => isFalse (fun h => Json.noConfusion h)
  | Json.num _, Json.str _ => isFalse (fun h => Json.noConfusion h)
  | Json.num _, Json.arr _ => isFalse (fun h => Json.noConfusion h)
  | Json.num _, Json.obj _ => isFalse (fun h => Json.noConfusion h)
  | Json.str _, Json.null => isFalse (fun h => Json.noConfusion h)
  | Json.str _, Json.bool _ => isFalse (fun h => Json.noConfusion h)
  | Json.str _, Json.num _ => isFalse (fun h => Json.noConfusion h)
  | Json.str _, Json.arr _ => isFalse (fun h => Json.noConfusion h)
  | Json.str _, Json.obj _ => isFalse (fun h => Json.noConfusion h)
  | Json.arr _, Json.null => isFalse (fun h => Json.noConfusion h)
  | Json.arr _, Json.bool _ => isFalse (fun h => Json.noConfusion h)
  | Json.arr _, Json.num _ => isFalse (fun h => Json.noConfusion h)
  | Json.arr _, Json.str _ => isFalse (fun h => Json.noConfusion h)
  | Json.arr _, Json.obj _ => isFalse (fun h => Json.noConfusion h)
  | Json.obj _, Json.null => isFalse (fun h => Json.noConfusion h)
  | Json.obj _, Json.bool _ => isFalse (fun h => Json.noConfusion h)
  | Json.obj _, Json.num _ => isFalse (fun h => Json.noConfusion h)
  | Json.obj _, Json.str _ => isFalse (fun h => Json.noConfusion h)
  | Json.obj _, Json.arr _ => isFalse (fun h => Json.noConfusion h)

/-- Decidable equality for lists of `Json` values. -/
def Json.decEqList : (xs ys : List Json) → Decidable (xs = ys)
  | [], [] => isTrue rfl
  | [], _ :: _ => isFalse (fun h => List.noConfusion h)
  | _ :: _, [] => isFalse (fun h => List.noConfusion h)
  | x :: xs, y :: ys =>
      match Json.decEq x y with
      | isFalse h => isFalse (fun hh => h (List.cons.inj hh).1)
      | isTrue h1 =>
          match Json.decEqList xs ys with
          | isTrue h2 => isTrue (h1 ▸ h2 ▸ rfl)
          | isFalse h => isFalse (fun hh => h (List.cons.inj hh).2)

/-- Decidable equality for object entry lists. -/
def Json.decEqEntries : (xs ys : List (String × Json)) → Decidable (xs = ys)
  | [], [] => isTrue rfl
  | [], _ :: _ => isFalse (fun h => List.noConfusion h)
  | _ :: _, [] => isFalse (fun h => List.noConfusion h)
  | (k1, v1) :: xs, (k2, v2) :: ys =>
      match String.decEq k1 k2 with
      | isFalse h => isFalse (fun hh => h (congrArg Prod.fst (List.cons.inj hh).1))
      | isTrue hk =>
          match Json.decEq v1 v2 with
          | isFalse h => isFalse (fun hh => h (congrArg Prod.snd (List.cons.inj hh).1))
          | isTrue hv =>
              match Json.decEqEntries xs ys with
              | isTrue ht => isTrue (hk ▸ hv ▸ ht ▸ rfl)
              | isFalse h => isFalse (fun hh => h (List.cons.inj hh).2)

end

instance : DecidableEq Json := Json.decEq

/-! ## Python dictionaries

Insertion-ordered association lists: assignment to an existing key updates the value in
place (keeping the key's position), assignment to a fresh key appends at the end —
exactly Python's dict semantics for the equality-compatible values that occur here. -/

/-- Python `d.get(key)` / `d[key]` lookup on an insertion-ordered dict. -/
def pyDictGet? {K V : Type} [DecidableEq K] : List (K × V) → K → Option V
  | [], _ => none
  | (k, v) :: rest, key => if k = key then some v else pyDictGet? rest key

/-- Python `d[key] = val` on an insertion-ordered dict. -/
def pyDictSet {K V : Type} [DecidableEq K] : List (K × V) → K → V → List (K × V)
  | [], key, val => [(key, val)]
  | (k, v) :: rest, key, val =>
      if k = key then (k, val) :: rest else (k, v) :: pyDictSet rest key val

/-- Python `d.get(key, default)`: succeeds only on a dict; anything else raises
(`AttributeError`), modelled as `Except.error`. -/
def pyGetD (j : Json) (key : String) (dflt : Json) : Except String Json :=
  match j with
  | Json.obj entries =>
      match pyDictGet? entries key with
      | some v => Except.ok v
      | none => Except.ok dflt
  | _ => Except.error "AttributeError: object has no attribute get"

/-- Python iteration (`for x in j` / list comprehension source): lists yield their
elements, strings their characters, dicts their keys; other values raise `TypeError`. -/
def asPyList (j : Json) : Except String (List Json) :=
  match j with
  | Json.arr elems => Except.ok elems
  | Json.str s => Except.ok (s.data.map (fun c => Json.str (String.mk [c])))
  | Json.obj entries => Except.ok (entries.map (fun kv => Json.str kv.1))
  | _ => Except.error "TypeError: object is not iterable"

/-- ASCII lowering, standing in for Python `str.lower()` (only ASCII language codes are
compared by the tool). -/
def pyStrLower (s : String) : String :=
  String.mk (s.data.map Char.toLower)

/-- Python `.lower()` on a JSON value: only strings have the method. -/
def pyLower (j : Json) : Except String String :=
  match j with
  | Json.str s => Except.ok (pyStrLower s)
  | _ => Except.error "AttributeError: object has no attribute lower"

/-- Digits of a decimal literal. -/
def allDigits (cs : List Char) : Bool :=
  cs.all Char.isDigit

/-- Parse the body of a Python integer literal (after sign removal). -/
def parseDigits (cs : List Char) : Option Int :=
  if cs ≠ [] && allDigits cs then
    some (Int.ofNat (cs.foldl (fun acc c => acc * 10 + (c.toNat - 48)) 0))
  else none

/-- Whitespace accepted by Python `int(str)` and `str.strip` (ASCII fragment). -/
def pyIsSpace (c : Char) : Bool :=
  c = ' ' || c = '\t' || c = '\n' || c = '\r' || c = '\x0b' || c = '\x0c' || c = '\xa0'

/-- Python `int(x)`: integers pass through, booleans coerce, numeric strings parse
(optionally signed, surrounding whitespace allowed), everything else raises. -/
def pyInt (j : Json) : Except String Int :=
  match j with
  | Json.num n => Except.ok n
  | Json.bool b => Except.ok (if b then 1 else 0)
  | Json.str s =>
      let core := (s.data.dropWhile pyIsSpace).reverse.dropWhile pyIsSpace |>.reverse
      match core with
      | '-' :: rest => match parseDigits rest with
          | some n => Except.ok (-n)
          | none => Except.error "ValueError: invalid literal for int()"
      | '+' :: rest => match parseDigits rest with
          | some n => Except.ok n
          | none => Except.error "ValueError: invalid literal for int()"
      | cs => match parseDigits cs with
          | some n => Except.ok n
          | none => Except.error "ValueError: invalid literal for int()"
  | _ => Except.error "TypeError: int() argument must be a string or a number"

/-- Python truthiness of a JSON value (`if url and ...`). -/
def pyTruthy (j : Json) : Bool :=
  match j with
  | Json.null => false
  | Json.bool b => b
  | Json.num n => n ≠ 0
  | Json.str s => s ≠ ""
  | Json.arr elems => !elems.isEmpty
  | Json.obj entries => !entries.isEmpty

/-! ## Content Normalizer: `parse_webvtt` (identical in all three source files) -/

/-- Characters treated as line boundaries by Python `str.splitlines`. -/
def isLineBreakChar (c : Char) : Bool :=
  c = '\n' || c = '\r' || c = '\x0b' || c = '\x0c' ||
  c = '\x1c' || c = '\x1d' || c = '\x1e' || c = '\x85' ||
  c = '\u2028' || c = '\u2029'

/-- Worker for `pySplitlines`: `acc` holds the current line, reversed; a `\r`
immediately followed by `\n` counts as a single boundary. -/
def splitlinesGo : List Char → List Char → List String
  | [], acc => if acc.isEmpty then [] else [String.mk acc.reverse]
  | c :: rest, acc =>
      if c = '\r' then
        String.mk acc.reverse ::
          (match rest with
           | [] => []
           | d :: rest2 =>
               if d = '\n' then splitlinesGo rest2 [] else splitlinesGo (d :: rest2) [])
      else if isLineBreakChar c then String.mk acc.reverse :: splitlinesGo rest []
      else splitlinesGo rest (c :: acc)

/-- Python `str.splitlines()`: split at line boundaries (with `\r\n` as one boundary),
dropping a final empty segment. -/
def pySplitlines (s : String) : List String :=
  splitlinesGo s.data []

/-- Python `str.strip()` (whitespace from both ends, ASCII fragment). -/
def pyStrip (s : String) : String :=
  String.mk (((s.data.dropWhile pyIsSpace).reverse.dropWhile pyIsSpace).reverse)

/-- Is the first list a prefix of the second (structurally, so that proofs can
evaluate it)? -/
def listIsPrefix : List Char → List Char → Bool
  | [], _ => true
  | _ :: _, [] => false
  | c :: cs, d :: ds => c = d && listIsPrefix cs ds

/-- Python `s.startswith(pre)`. -/
def pyStartswith (s : String) (pre : String) : Bool :=
  listIsPrefix pre.data s.data

/-- Shape of one `\d{2}:\d{2}:\d{2}\.\d{3}` timestamp, checked on exactly 12 chars. -/
def tsShape (cs : List Char) : Bool :=
  match cs with
  | [d1, d2, c1, d3, d4, c2, d5, d6, dot, d7, d8, d9] =>
      allDigits [d1, d2, d3, d4, d5, d6, d7, d8, d9] && c1 = ':' && c2 = ':' && dot = '.'
  | _ => false

/-- Consume one timestamp from the front of a character list (hand-compiled from the
fixed regex); returns the rest on success. -/
def eatTimestamp (cs : List Char) : Option (List Char) :=
  if tsShape (cs.take 12) then some (cs.drop 12) else none

/-- The exact regex of the source, hand-compiled:
`re.match(r"^\d{2}:\d{2}:\d{2}\.\d{3} --> \d{2}:\d{2}:\d{2}\.\d{3}$", line)`.
Python's `$` also matches just before one trailing newline, which is kept faithful here
(it is unreachable from `splitlines` output but matters for the anchoring claim). -/
def matchTimecodeLine (line : String) : Bool :=
  match eatTimestamp line.data with
  | some rest =>
      match rest with
      | c1 :: c2 :: c3 :: c4 :: c5 :: rest2 =>
          c1 = ' ' && c2 = '-' && c3 = '-' && c4 = '>' && c5 = ' ' &&
          (match eatTimestamp rest2 with
           | some r => r = [] || r = ['\n']
           | none => false)
      | _ => false
  | none => false

/-- The filtering loop of `parse_webvtt` (`parsed_content` is `acc`, reversed). -/
def parseWebvttGo : List String → List String → List String
  | [], acc => acc.reverse
  | line :: rest, acc =>
      if matchTimecodeLine line then parseWebvttGo rest acc
      else if pyStartswith line "WEBVTT" || pyStrip line = "" then parseWebvttGo rest acc
      else parseWebvttGo rest (line :: acc)

/-- Python `"\n".join(lines)`. -/
def joinNL : List String → String
  | [] => ""
  | [l] => l
  | l :: rest => l ++ "\n" ++ joinNL rest

/-- `parse_webvtt(content, strip_timestamps)` from the source. -/
def parse_webvtt (content : String) (strip_timestamps : Bool) : String :=
  if !strip_timestamps then content
  else joinNL (parseWebvttGo (pySplitlines content) [])

/-! ## Network model

The single `requests.get` per work unit is replaced by an oracle from the URL value to
an outcome.  `raise_for_status` folds the non-2xx case into `httpError`. -/

/-- Outcome of the one HTTP GET a work unit may issue. -/
inductive FetchOutcome where
  | success (body : String)
  | timeout
  | httpError (code : Nat)
  | netError (msg : String)

/-- Whether the outcome is the success case. -/
def FetchOutcome.isSuccess : FetchOutcome → Bool
  | FetchOutcome.success _ => true
  | _ => false

/-- The network oracle: what the GET of a given URL value would produce. -/
abbrev Net : Type := Json → FetchOutcome

/-- Rendering of `str(e)` for a failed request in the CLI scripts, which catch a bare
`Exception`.  The concrete text is abstracted; no claim inspects it. -/
def exceptionText : FetchOutcome → String
  | FetchOutcome.success _ => ""
  | FetchOutcome.timeout => "Read timed out."
  | FetchOutcome.httpError code => toString code ++ " Error for url"
  | FetchOutcome.netError msg => msg

/-- `if url and int(url_expire) > time.time()`: truthiness short-circuits, so a falsy
url never evaluates `int(url_expire)`; a truthy one may raise on a malformed value. -/
def fetchCheck (url : Json) (url_expire : Json) (now : Int) : Except String Bool :=
  if pyTruthy url then do
    let e ← pyInt url_expire
    Except.ok (decide (e > now))
  else Except.ok false

/-- The same check starting from the matched descriptor (binds `Url` and `UrlExpire`
exactly as the source's branch does). -/
def descFetchCheck (sub : Json) (now : Int) : Except String Bool := do
  let url ← pyGetD sub "Url" Json.null
  let url_expire ← pyGetD sub "UrlExpire" (Json.num 0)
  fetchCheck url url_expire now

/-- A Python list comprehension with a fallible predicate: elements are tested left to
right and the first raised exception propagates. -/
def exceptFilter {α : Type} (p : α → Except String Bool) : List α → Except String (List α)
  | [] => Except.ok []
  | x :: xs => do
      let b ← p x
      let rest ← exceptFilter p xs
      Except.ok (if b then x :: rest else rest)

/-- Lift a plain exception into an error channel that also carries the URLs already
fetched before the exception was raised. -/
def liftErr {α : Type} : Except String α → Except (String × List Json) α
  | Except.ok a => Except.ok a
  | Except.error e => Except.error (e, [])

/-! ## CLI engine: `download_subtitle` from src/TikTok/subs_toolkit.py

`output_dir`, `verbose` and `group_by` only influence file-system side effects and
logging, never the returned results, and are therefore not parameters of the
embedding; the text-mode file write is the one side effect not modelled. -/

namespace CLI

/-- One result dictionary of the CLI engine. -/
structure Result where
  id : Json
  language : Option String
  success : Bool
  reason : Option String
  content : Option String
  deriving DecidableEq

/-- `item.get("data", {}).get("item_id", item.get("data", {}).get("id", "unknown"))`,
evaluated in Python's order (receiver, then the default argument). -/
def resolve_video_id (item : Json) : Except String Json := do
  let data1 ← pyGetD item "data" (Json.obj [])
  let data2 ← pyGetD item "data" (Json.obj [])
  let fallback ← pyGetD data2 "id" (Json.str "unknown")
  pyGetD data1 "item_id" fallback

/-- The comprehension filter:
`sub.get("LanguageCodeName", "").lower().startswith(language) and sub.get("Format") == "webvtt"`.
The `and` cannot short-circuit past an exception here, since only the first `get` can
raise (on a non-dict `sub`). -/
def subtitleMatches (sub : Json) (language : String) : Except String Bool := do
  let lc ← pyGetD sub "LanguageCodeName" (Json.str "")
  let lowered ← pyLower lc
  let fmt ← pyGetD sub "Format" Json.null
  Except.ok (pyStartswith lowered language && decide (fmt = Json.str "webvtt"))

/-- Body of the `if matching_subtitles:` branch, given `subtitle = matching_subtitles[0]`.
Returns the one result for this language together with the URLs fetched. -/
def processDesc (net : Net) (now : Int) (video_id : Json) (subtitle : Json)
    (strip_timestamps append_mode : Bool) (language : String) :
    Except String (Result × List Json) := do
  let url ← pyGetD subtitle "Url" Json.null
  let url_expire ← pyGetD subtitle "UrlExpire" (Json.num 0)
  let fetchable ← fetchCheck url url_expire now
  if fetchable then
    match net url with
    | FetchOutcome.success body =>
        let subtitle_content := parse_webvtt body strip_timestamps
        if append_mode then
          Except.ok (⟨video_id, some language, true, none, some subtitle_content⟩, [url])
        else
          Except.ok (⟨video_id, some language, true, none, none⟩, [url])
    | outcome =>
        Except.ok (⟨video_id, some language, false, some (exceptionText outcome),
          if append_mode then some "" else none⟩, [url])
  else
    Except.ok (⟨video_id, some language, false, some "Expired URL",
      if append_mode then some "" else none⟩, [])

/-- One iteration of `for language in languages` (iteration of `subtitles` happens here,
inside the comprehension, as in the source). -/
def processLang (net : Net) (now : Int) (video_id : Json) (subtitlesJ : Json)
    (strip_timestamps append_mode : Bool) (language : String) :
    Except String (Result × List Json) := do
  let subtitles ← asPyList subtitlesJ
  let matching_subtitles ← exceptFilter (fun sub => subtitleMatches sub language) subtitles
  match matching_subtitles with
  | subtitle :: _ => processDesc net now video_id subtitle strip_timestamps append_mode language
  | [] =>
      Except.ok (⟨video_id, some language, false, some "Language unavailable",
        if append_mode then some "" else none⟩, [])

/-- The language loop.  An exception aborts the loop, discarding the results built so
far (the CLI `except` branch returns a fresh one-element list) but keeping the log of
URLs already fetched. -/
def langLoop (net : Net) (now : Int) (video_id : Json) (subtitlesJ : Json)
    (strip_timestamps append_mode : Bool) :
    List String → Except (String × List Json) (List Result × List Json)
  | [] => Except.ok ([], [])
  | language :: rest =>
      match processLang net now video_id subtitlesJ strip_timestamps append_mode language with
      | Except.error e => Except.error (e, [])
      | Except.ok (r, calls) =>
          match langLoop net now video_id subtitlesJ strip_timestamps append_mode rest with
          | Except.error (e, calls2) => Except.error (e, calls ++ calls2)
          | Except.ok (rs, calls2) => Except.ok (r :: rs, calls ++ calls2)

/-- The `try:` block of `download_subtitle`. -/
def downloadTry (net : Net) (now : Int) (item : Json) (languages : List String)
    (strip_timestamps append_mode : Bool) :
    Except (String × List Json) (List Result × List Json) := do
  let video_id ← liftErr (resolve_video_id item)
  let data_content ← liftErr (pyGetD item "data" (Json.obj []))
  let video_content ← liftErr (pyGetD data_content "video" (Json.obj []))
  let subtitlesJ ← liftErr (pyGetD video_content "subtitleInfos" (Json.arr []))
  langLoop net now video_id subtitlesJ strip_timestamps append_mode languages

/-- `download_subtitle(item, languages, strip_timestamps, ...)` of subs_toolkit.py.
On an internal exception the handler returns a single catch-all failure result,
recomputing the id (which can itself raise, escaping the function: `Except.error`). -/
def download_subtitle (net : Net) (now : Int) (item : Json) (languages : List String)
    (strip_timestamps append_mode : Bool) : Except String (List Result × List Json) :=
  match downloadTry net now item languages strip_timestamps append_mode with
  | Except.ok out => Except.ok out
  | Except.error (e, calls) =>
      match resolve_video_id item with
      | Except.ok vid =>
          Except.ok ([⟨vid, none, false, some e, if append_mode then some "" else none⟩], calls)
      | Except.error e2 => Except.error e2

/-- `if vid not in video_map: video_map[vid] = {}`. -/
def ensureVid {V : Type} (video_map : List (Json × List (String × V))) (vid : Json) :
    List (Json × List (String × V)) :=
  if (pyDictGet? video_map vid).isNone then pyDictSet video_map vid [] else video_map

/-- One iteration of the append-mode `video_map` loop (scrape_subtitles lines 281-286):
`video_map[vid]["languages"][r["language"]] = r["content"] if r["success"] else ""`.
The inner dict sits under the constant key "languages" in the source; the constant
wrapper is elided and the inner language→content dict modelled directly. -/
def videoMapStep (video_map : List (Json × List (String × Option String))) (r : Result) :
    List (Json × List (String × Option String)) :=
  let m1 := ensureVid video_map r.id
  match r.language with
  | some lang =>
      pyDictSet m1 r.id
        (pyDictSet ((pyDictGet? m1 r.id).getD []) lang (if r.success then r.content else some ""))
  | none => m1

/-- The `video_map` built in append mode. -/
def buildVideoMap (all_results : List Result) : List (Json × List (String × Option String)) :=
  all_results.foldl videoMapStep []

end CLI

/-! ## Streamlit engine: `download_subtitle` and the aggregations from
src/TikTok/Streamlit/app.py.  The `rate_limit` decorator only delays execution and is
not modelled. -/

namespace App

/-- One result dictionary of the Streamlit engine (`content` is always a string here,
empty on failure; `extension` is set only on success). -/
structure Result where
  id : Json
  language : Option String
  success : Bool
  reason : Option String
  content : String
  extension : Option String
  deriving DecidableEq

/-- `get_media_info(video_content, find_type)`. -/
def get_media_info (video_content : Json) (find_type : String) : Except String Json :=
  if pyStrLower find_type = "caption" then do
    let cla_info ← pyGetD video_content "claInfo" (Json.obj [])
    pyGetD cla_info "captionInfos" (Json.arr [])
  else
    pyGetD video_content "subtitleInfos" (Json.arr [])

/-- The comprehension filter:
`m.get("LanguageCodeName", "").lower() == lang.lower() and m.get("Format") == "webvtt"`
— exact case-insensitive equality, for both subtitle and caption kinds. -/
def mediaMatches (m : Json) (lang : String) : Except String Bool := do
  let lc ← pyGetD m "LanguageCodeName" (Json.str "")
  let lowered ← pyLower lc
  let fmt ← pyGetD m "Format" Json.null
  Except.ok (decide (lowered = pyStrLower lang) && decide (fmt = Json.str "webvtt"))

/-- Body of the `if matching:` branch, given `media_info = matching[0]`.  Returns the
results this language appends (note: the network-failure arms of the source compute
`reason` but never append a result — kept faithful, hence the empty list in that
branch) and the log of URLs fetched. -/
def processDesc (net : Net) (now : Int) (video_id : Json) (media_info : Json)
    (strip_timestamps : Bool) (lang : String) : Except String (List Result × List Json) := do
  let url ← pyGetD media_info "Url" Json.null
  let url_expire ← pyGetD media_info "UrlExpire" (Json.num 0)
  let fetchable ← fetchCheck url url_expire now
  if fetchable then
    match net url with
    | FetchOutcome.success body =>
        let subtitle_content := parse_webvtt body strip_timestamps
        let extension := if strip_timestamps then "txt" else "vtt"
        Except.ok ([⟨video_id, some lang, true, none, subtitle_content, some extension⟩], [url])
    | _ =>
        Except.ok ([], [url])
  else
    Except.ok ([⟨video_id, some lang, false, some "Expired or invalid URL", "", none⟩], [])

/-- One iteration of `for lang in languages`. -/
def processLang (net : Net) (now : Int) (video_id : Json) (media_infosJ : Json)
    (strip_timestamps : Bool) (lang : String) : Except String (List Result × List Json) := do
  let media_infos ← asPyList media_infosJ
  let matching ← exceptFilter (fun m => mediaMatches m lang) media_infos
  match matching with
  | media_info :: _ => processDesc net now video_id media_info strip_timestamps lang
  | [] =>
      Except.ok ([⟨video_id, some lang, false, some "Language unavailable", "", none⟩], [])

/-- The language loop.  An exception aborts the loop but the results accumulated so far
survive into the `except` handler (here carried on the error channel), unlike the CLI. -/
def langLoop (net : Net) (now : Int) (video_id : Json) (media_infosJ : Json)
    (strip_timestamps : Bool) :
    List String → Except (String × List Result × List Json) (List Result × List Json)
  | [] => Except.ok ([], [])
  | lang :: rest =>
      match processLang net now video_id media_infosJ strip_timestamps lang with
      | Except.error e => Except.error (e, [], [])
      | Except.ok (rs1, calls1) =>
          match langLoop net now video_id media_infosJ strip_timestamps rest with
          | Except.error (e, rs2, calls2) => Except.error (e, rs1 ++ rs2, calls1 ++ calls2)
          | Except.ok (rs2, calls2) => Except.ok (rs1 ++ rs2, calls1 ++ calls2)

/-- Lift a plain exception into the error channel carrying partial results and calls. -/
def liftErrA {α : Type} : Except String α → Except (String × List Result × List Json) α
  | Except.ok a => Except.ok a
  | Except.error e => Except.error (e, [], [])

/-- The `try:` block of the Streamlit `download_subtitle`. -/
def downloadTry (net : Net) (now : Int) (item : Json) (languages : List String)
    (strip_timestamps : Bool) (find_type : String) :
    Except (String × List Result × List Json) (List Result × List Json) := do
  let data_content ← liftErrA (pyGetD item "data" (Json.obj []))
  let fallback ← liftErrA (pyGetD data_content "id" (Json.str "unknown"))
  let video_id ← liftErrA (pyGetD data_content "item_id" fallback)
  let video_content ← liftErrA (pyGetD data_content "video" (Json.obj []))
  let media_infosJ ← liftErrA (get_media_info video_content find_type)
  langLoop net now video_id media_infosJ strip_timestamps languages

/-- The Streamlit `download_subtitle(item, languages, strip_timestamps, find_type)`.
The `except` handler appends one catch-all failure after the partial results,
recomputing the id with the nested-default form (which can itself raise and escape). -/
def download_subtitle (net : Net) (now : Int) (item : Json) (languages : List String)
    (strip_timestamps : Bool) (find_type : String) : Except String (List Result × List Json) :=
  match downloadTry net now item languages strip_timestamps find_type with
  | Except.ok out => Except.ok out
  | Except.error (e, partialResults, calls) =>
      match CLI.resolve_video_id item with
      | Except.ok vid =>
          Except.ok (partialResults ++ [⟨vid, none, false, some e, "", none⟩], calls)
      | Except.error e2 => Except.error e2

/-- The fan-in of `scrape_subtitles`: `all_results.extend(res)` over the items in the
order their futures complete.  `order` is the truncated item list in completion order
(any permutation of `items[:num_videos]`; with `threads == 1` it is that list itself). -/
def runOrder (net : Net) (now : Int) (order : List Json) (languages : List String)
    (strip_timestamps : Bool) (find_type : String) : Except String (List Result) :=
  match order with
  | [] => Except.ok []
  | item :: rest => do
      let (res, _) ← download_subtitle net now item languages strip_timestamps find_type
      let restResults ← runOrder net now rest languages strip_timestamps find_type
      Except.ok (res ++ restResults)

/-- One iteration of the NDJSON-branch `video_map` loop (app.py lines 421-427): an
entry for every result id, but only *successful* results with a non-None language
contribute a language key. -/
def ndjsonStep (video_map : List (Json × List (String × String))) (r : Result) :
    List (Json × List (String × String)) :=
  let m1 := CLI.ensureVid video_map r.id
  match r.language with
  | some lang =>
      if r.success then
        pyDictSet m1 r.id (pyDictSet ((pyDictGet? m1 r.id).getD []) lang r.content)
      else m1
  | none => m1

/-- The `video_map` of the NDJSON branch. -/
def buildNdjsonMap (all_results : List Result) : List (Json × List (String × String)) :=
  all_results.foldl ndjsonStep []

/-- One iteration of the CSV-branch `video_map` loop (app.py lines 447-453): every
result with a non-None language contributes, failures as the empty string. -/
def csvStep (video_map : List (Json × List (String × String))) (r : Result) :
    List (Json × List (String × String)) :=
  let m1 := CLI.ensureVid video_map r.id
  match r.language with
  | some lang =>
      pyDictSet m1 r.id
        (pyDictSet ((pyDictGet? m1 r.id).getD []) lang (if r.success then r.content else ""))
  | none => m1

/-- The `video_map` of the CSV branch. -/
def buildCsvMap (all_results : List Result) : List (Json × List (String × String)) :=
  all_results.foldl csvStep []

/-- `data_content = item.get("data", {}); vid = data_content.get("item_id",
data_content.get("id", "unknown"))` as used by the CSV and NDJSON output loops. -/
def resolveVid (item : Json) : Except String Json := do
  let data_content ← pyGetD item "data" (Json.obj [])
  let fallback ← pyGetD data_content "id" (Json.str "unknown")
  pyGetD data_content "item_id" fallback

/-- Rows written by the CSV branch: `[vid] + [video_map.get(vid, {}).get(lang, "")
for lang in languages]`, one per item of the truncated input, in input order.  The
`csv.writer` serialization (quoting) is not modelled; a row is its cell values. -/
def csvRowsGo (video_map : List (Json × List (String × String))) (languages : List String) :
    List Json → Except String (List (Json × List String))
  | [] => Except.ok []
  | item :: rest => do
      let vid ← resolveVid item
      let row := languages.map (fun lang =>
        (pyDictGet? ((pyDictGet? video_map vid).getD []) lang).getD "")
      let restRows ← csvRowsGo video_map languages rest
      Except.ok ((vid, row) :: restRows)

/-- The CSV output of `scrape_subtitles` (header `["video_id"] + languages` is fixed
by the source and carried implicitly). -/
def csvRows (to_process : List Json) (languages : List String) (all_results : List Result) :
    Except String (List (Json × List String)) :=
  csvRowsGo (buildCsvMap all_results) languages to_process

/-- `ensure_nested_path(d, path)`: walk the keys, replacing a missing or non-dict
entry by a fresh dict.  Only the top-level value can fail the membership test; after
one step the current value is always a dict. -/
def ensure_nested_path (j : Json) : List String → Except String Json
  | [] => Except.ok j
  | key :: rest =>
      match j with
      | Json.obj entries =>
          match pyDictGet? entries key with
          | some (Json.obj sub) => do
              let sub2 ← ensure_nested_path (Json.obj sub) rest
              Except.ok (Json.obj (pyDictSet entries key sub2))
          | _ => do
              let sub2 ← ensure_nested_path (Json.obj []) rest
              Except.ok (Json.obj (pyDictSet entries key sub2))
      | _ => Except.error "TypeError: argument does not support membership test"

/-- `d[k1][k2]...[kn] = v`: subscript down the path and assign at the last key. -/
def setNestedPath (j : Json) : List String → Json → Except String Json
  | [], _ => Except.error "empty path is never produced by the source"
  | [key], v =>
      match j with
      | Json.obj entries => Except.ok (Json.obj (pyDictSet entries key v))
      | _ => Except.error "TypeError: object does not support item assignment"
  | key :: rest, v =>
      match j with
      | Json.obj entries =>
          match pyDictGet? entries key with
          | some sub => do
              let sub2 ← setNestedPath sub rest v
              Except.ok (Json.obj (pyDictSet entries key sub2))
          | none => Except.error "KeyError"
      | _ => Except.error "TypeError: object is not subscriptable"

/-- One line of the NDJSON branch: resolve the id, fetch this id's language→content
map, ensure the kind-specific nested path and insert each language field in map
order. -/
def mergeItem (find_type : String) (video_map : List (Json × List (String × String)))
    (item : Json) : Except String Json := do
  let vid ← resolveVid item
  let sub_map := (pyDictGet? video_map vid).getD []
  if pyStrLower find_type = "caption" then do
    let item1 ← ensure_nested_path item ["data", "video", "claInfo", "caption"]
    sub_map.foldlM (fun it kv =>
      setNestedPath it ["data", "video", "claInfo", "caption", kv.1] (Json.str kv.2)) item1
  else do
    let item1 ← ensure_nested_path item ["data", "video", "subtitle"]
    sub_map.foldlM (fun it kv =>
      setNestedPath it ["data", "video", "subtitle", kv.1] (Json.str kv.2)) item1

/-- The NDJSON output: one merged record per item of the truncated input, in input
order (`json.dumps` serialization is not modelled; a line is its record value). -/
def ndjsonRecords (to_process : List Json) (find_type : String) (all_results : List Result) :
    Except String (List Json) :=
  to_process.mapM (mergeItem find_type (buildNdjsonMap all_results))

end App

/-! ## CLI run loop and the Python-Standalone output writers
(src/TikTok/Python-Standalone/subs_toolkit.py, scrape_subtitles lines 229-269).
Both CLI scripts share the same fan-in: `all_results.extend(res)` over items in
future-completion order.  The Standalone `download_subtitle` has the same try-body and
handler as the subs_toolkit.py one (startswith matcher, "Expired URL", a failure
result appended on every network error) with `save_format` in place of `append`; its
result dicts have the CLI shape, so the writers below consume `CLI.Result`. -/

/-- The fan-in of the CLI `scrape_subtitles` (subs_toolkit.py lines 254-263 /
Python-Standalone lines 201-225): the results of each processed item, concatenated in
completion order.  `order` is any permutation of `items[:num_videos]`. -/
def CLI.runOrder (net : Net) (now : Int) (order : List Json) (languages : List String)
    (strip_timestamps append_mode : Bool) : Except String (List CLI.Result) :=
  match order with
  | [] => Except.ok []
  | item :: rest => do
      let (res, _) ← CLI.download_subtitle net now item languages strip_timestamps append_mode
      let restResults ← CLI.runOrder net now rest languages strip_timestamps append_mode
      Except.ok (res ++ restResults)

namespace Standalone

/-- One iteration of the NDJSON-branch `video_map` loop (Python-Standalone
lines 231-238): every result with a non-None language contributes
`r["content"] if r["success"] else ""`.  The constant "languages" wrapper key is
elided and the inner language→content dict modelled directly, as for the
subs_toolkit.py append map. -/
def ndjsonMapStep (video_map : List (Json × List (String × Option String)))
    (r : CLI.Result) : List (Json × List (String × Option String)) :=
  let m1 := CLI.ensureVid video_map r.id
  match r.language with
  | some lang =>
      pyDictSet m1 r.id
        (pyDictSet ((pyDictGet? m1 r.id).getD []) lang (if r.success then r.content else some ""))
  | none => m1

/-- The `video_map` of the Standalone NDJSON branch. -/
def buildNdjsonMap (all_results : List CLI.Result) :
    List (Json × List (String × Option String)) :=
  all_results.foldl ndjsonMapStep []

/-- One iteration of the CSV-branch `video_map` loop (Python-Standalone
lines 250-257): the same insert, into a wrapperless map. -/
def csvMapStep (video_map : List (Json × List (String × Option String)))
    (r : CLI.Result) : List (Json × List (String × Option String)) :=
  let m1 := CLI.ensureVid video_map r.id
  match r.language with
  | some lang =>
      pyDictSet m1 r.id
        (pyDictSet ((pyDictGet? m1 r.id).getD []) lang (if r.success then r.content else some ""))
  | none => m1

/-- The `video_map` of the Standalone CSV branch. -/
def buildCsvMap (all_results : List CLI.Result) :
    List (Json × List (String × Option String)) :=
  all_results.foldl csvMapStep []

/-- Rows of the Standalone CSV writer (lines 263-269):
`row = [vid]; row.append(video_map.get(vid, {}).get(lang, ""))` per requested
language, one row per truncated item in input order.  `vid` is resolved with the
double-get form `item.get("data", {}).get("item_id", item.get("data", {}).get("id",
"unknown"))`, which is `CLI.resolve_video_id`.  A cell holds the stored content
value (an `Option String`, since a stored content can be Python `None`) or `""`. -/
def csvRowsGo (video_map : List (Json × List (String × Option String)))
    (languages : List String) : List Json → Except String (List (Json × List (Option String)))
  | [] => Except.ok []
  | item :: rest => do
      let vid ← CLI.resolve_video_id item
      let row := languages.map (fun lang =>
        (pyDictGet? ((pyDictGet? video_map vid).getD []) lang).getD (some ""))
      let restRows ← csvRowsGo video_map languages rest
      Except.ok ((vid, row) :: restRows)

/-- The Standalone CSV output (header `["video_id"] + languages` is fixed by the
source and carried implicitly). -/
def csvRows (to_process : List Json) (languages : List String)
    (all_results : List CLI.Result) : Except String (List (Json × List (Option String))) :=
  csvRowsGo (buildCsvMap all_results) languages to_process

/-- A stored content value serialized into the merged record: `None` becomes JSON
null under `json.dumps`. -/
def jsonOfContent : Option String → Json
  | some s => Json.str s
  | none => Json.null

/-- One line of the Standalone NDJSON writer (lines 241-247): resolve the id with the
double-get form, fetch this id's language→content map, `ensure_nested_path(item,
"data.video.subtitle")` and assign `item["data"]["video"]["subtitle"][lang]` per map
entry in map order.  The Standalone `ensure_nested_path` (lines 91-100) has the same
semantics as the app.py one already embedded as `App.ensure_nested_path`, which is
reused here, as is `App.setNestedPath` for the subscript-assignment chain. -/
def mergeItem (video_map : List (Json × List (String × Option String)))
    (item : Json) : Except String Json := do
  let vid ← CLI.resolve_video_id item
  let lang_contents := (pyDictGet? video_map vid).getD []
  let item1 ← App.ensure_nested_path item ["data", "video", "subtitle"]
  lang_contents.foldlM (fun it kv =>
    App.setNestedPath it ["data", "video", "subtitle", kv.1] (jsonOfContent kv.2)) item1

/-- The Standalone NDJSON output: one merged record per truncated item, in input
order. -/
def ndjsonRecords (to_process : List Json) (all_results : List CLI.Result) :
    Except String (List Json) :=
  to_process.mapM (mergeItem (buildNdjsonMap all_results))

end Standalone

/-! ## Derived definitions used to state the claims -/

/-- The keep-predicate of the normalizer: a line survives iff it is not a
timecode-range line, does not begin with the WEBVTT header token, and is not empty
after stripping whitespace. -/
def keepLine (line : String) : Bool :=
  !matchTimecodeLine line && !pyStartswith line "WEBVTT" && !(pyStrip line = "")

/-- The last element of a list satisfying `p` (a Python dict built by successive
assignments keeps, for each key, the value of the last write). -/
def findLastP {α : Type} (p : α → Bool) : List α → Option α
  | [] => none
  | x :: xs =>
      match findLastP p xs with
      | some y => some y
      | none => if p x then some x else none

/-- `video_map.get(vid, {}).get(lang)` as one nested lookup. -/
def mapLookup2 {V : Type} (m : List (Json × List (String × V))) (vid : Json)
    (lang : String) : Option V :=
  (pyDictGet? m vid).bind (fun inner => pyDictGet? inner lang)

/-- The cell a CLI result contributes to the merged map. -/
def CLI.cellValue (r : CLI.Result) : Option String :=
  if r.success then r.content else some ""

/-- The cell a Streamlit result contributes to the CSV map. -/
def App.cellValue (r : App.Result) : String :=
  if r.success then r.content else ""

/-- Does the CLI result carry this (identity, language) key? -/
def CLI.keyB (vid : Json) (lang : String) (r : CLI.Result) : Bool :=
  r.id = vid && r.language = some lang

/-- Does the Streamlit result carry this (identity, language) key? -/
def App.csvKeyB (vid : Json) (lang : String) (r : App.Result) : Bool :=
  r.id = vid && r.language = some lang

/-- Does the Streamlit result carry this key *and* report success (only those reach
the NDJSON map)? -/
def App.ndjsonKeyB (vid : Json) (lang : String) (r : App.Result) : Bool :=
  r.id = vid && r.language = some lang && r.success

/-- No two results of the stream disagree on the cell for one (identity, language)
key.  Holds in particular whenever all truncated records have distinct identities. -/
def App.csvConsistent (rs : List App.Result) : Prop :=
  ∀ r1 ∈ rs, ∀ r2 ∈ rs, r1.id = r2.id → r1.language = r2.language →
    App.cellValue r1 = App.cellValue r2

/-- The CLI analogue: no two results of the stream disagree on the cell for one
(identity, language) key. -/
def CLI.videoMapConsistent (rs : List CLI.Result) : Prop :=
  ∀ r1 ∈ rs, ∀ r2 ∈ rs, r1.id = r2.id → r1.language = r2.language →
    CLI.cellValue r1 = CLI.cellValue r2

/-! ## Concrete data for counterexamples and witnesses -/

/-- A record with one English webvtt descriptor expiring at epoch second 99. -/
def recordEn : Json := Json.obj [("data", Json.obj [("item_id", Json.str "v1"),
  ("video", Json.obj [("subtitleInfos", Json.arr [Json.obj [
    ("LanguageCodeName", Json.str "en"), ("Format", Json.str "webvtt"),
    ("Url", Json.str "http://u1"), ("UrlExpire", Json.num 99)]])])])]

/-- A record whose only descriptor is tagged `en-US`. -/
def recordEnUS : Json := Json.obj [("data", Json.obj [("item_id", Json.str "v1"),
  ("video", Json.obj [("subtitleInfos", Json.arr [Json.obj [
    ("LanguageCodeName", Json.str "en-US"), ("Format", Json.str "webvtt"),
    ("Url", Json.str "http://u1"), ("UrlExpire", Json.num 99)]])])])]

/-- A record whose descriptor's URL has already expired at epoch second 10. -/
def recordExpired : Json := Json.obj [("data", Json.obj [("item_id", Json.str "v1"),
  ("video", Json.obj [("subtitleInfos", Json.arr [Json.obj [
    ("LanguageCodeName", Json.str "en"), ("Format", Json.str "webvtt"),
    ("Url", Json.str "http://u1"), ("UrlExpire", Json.num 10)]])])])]

/-- Two records sharing the identity "dup" but pointing at different URLs. -/
def recordDupA : Json := Json.obj [("data", Json.obj [("item_id", Json.str "dup"),
  ("video", Json.obj [("subtitleInfos", Json.arr [Json.obj [
    ("LanguageCodeName", Json.str "en"), ("Format", Json.str "webvtt"),
    ("Url", Json.str "http://ua"), ("UrlExpire", Json.num 99)]])])])]

/-- Second record with the same identity "dup". -/
def recordDupB : Json := Json.obj [("data", Json.obj [("item_id", Json.str "dup"),
  ("video", Json.obj [("subtitleInfos", Json.arr [Json.obj [
    ("LanguageCodeName", Json.str "en"), ("Format", Json.str "webvtt"),
    ("Url", Json.str "http://ub"), ("UrlExpire", Json.num 99)]])])])]

/-- A record with English and French descriptors (distinct URLs). -/
def recordEnFr : Json := Json.obj [("data", Json.obj [("item_id", Json.str "v1"),
  ("video", Json.obj [("subtitleInfos", Json.arr [
    Json.obj [("LanguageCodeName", Json.str "en"), ("Format", Json.str "webvtt"),
      ("Url", Json.str "http://ua"), ("UrlExpire", Json.num 99)],
    Json.obj [("LanguageCodeName", Json.str "fr"), ("Format", Json.str "webvtt"),
      ("Url", Json.str "http://ub"), ("UrlExpire", Json.num 99)]])])])]

/-- An English webvtt descriptor at URL "http://ua". -/
def descEnA : Json := Json.obj [("LanguageCodeName", Json.str "en"),
  ("Format", Json.str "webvtt"), ("Url", Json.str "http://ua"), ("UrlExpire", Json.num 99)]

/-- A second English webvtt descriptor, at URL "http://ub". -/
def descEnB : Json := Json.obj [("LanguageCodeName", Json.str "en"),
  ("Format", Json.str "webvtt"), ("Url", Json.str "http://ub"), ("UrlExpire", Json.num 99)]

/-- An oracle on which every GET succeeds, with a body depending on the URL. -/
def successNet : Net := fun u =>
  FetchOutcome.success (if u = Json.str "http://ua" then "AAA" else "BBB")

/-- An oracle on which every GET times out. -/
def timeoutNet : Net := fun _ => FetchOutcome.timeout

/-- Did the computation finish without a Python exception? -/
def exceptIsOk {ε α : Type} : Except ε α → Bool
  | Except.ok _ => true
  | Except.error _ => false

/-! ## Basic lemmas -/

theorem String.mk_data (s : String) : String.mk s.data = s := rfl

theorem String.data_appendStr (a b : String) : (a ++ b).data = a.data ++ b.data := rfl

/-- The accumulator loop of the normalizer is a filter by `keepLine`. -/
theorem parseWebvttGo_eq_filter (ls : List String) (acc : List String) :
    parseWebvttGo ls acc = acc.reverse ++ ls.filter keepLine := by
  induction ls generalizing acc with
  | nil => simp [parseWebvttGo]
  | cons l rest ih =>
      by_cases h1 : matchTimecodeLine l
      · simp [parseWebvttGo, h1, keepLine, List.filter, ih]
      · by_cases h2 : pyStartswith l "WEBVTT"
        · simp [parseWebvttGo, h1, h2, keepLine, List.filter, ih]
        · by_cases h3 : pyStrip l = ""
          · simp [parseWebvttGo, h1, h2, h3, keepLine, List.filter, ih]
          · simp [parseWebvttGo, h1, h2, h3, keepLine, List.filter, ih]

/-- C7: `parse_webvtt(rawText, False)` returns its input unchanged, and
`parse_webvtt(rawText, True)` returns exactly the input lines that are not a
timecode-range line, do not begin with the WEBVTT header token, and are not empty
after stripping whitespace, re-joined with a single newline, in original order. -/
theorem parse_webvtt_contract (content : String) :
    parse_webvtt content false = content ∧
    parse_webvtt content true = joinNL ((pySplitlines content).filter keepLine) := by
  refine ⟨rfl, ?_⟩
  simp [parse_webvtt, parseWebvttGo_eq_filter]

/-- C4: a descriptor with a string url and an integer expiry passes the freshness
check iff the url is non-empty and the expiry epoch-second value is strictly greater
than the current time; in particular a descriptor with `UrlExpire == now` is treated
as expired. -/
theorem fetchable_iff (u : String) (e now : Int) :
    (fetchCheck (Json.str u) (Json.num e) now = Except.ok true ↔ (u ≠ "" ∧ e > now)) ∧
    fetchCheck (Json.str u) (Json.num e) e = Except.ok false := by
  constructor
  · by_cases hu : u = "" <;>
      simp [fetchCheck, pyTruthy, hu, pyInt, Except.bind, bind]
  · by_cases hu : u = "" <;>
      simp [fetchCheck, pyTruthy, hu, pyInt, Except.bind, bind]

/-- C3 counterexample: in the Streamlit engine a subtitle-kind request for "en" fails
against a descriptor tagged "en-US" even though the lower-cased descriptor code starts
with the requested code — subtitle matching is not prefix-based there. -/
theorem subtitle_prefix_match_cex :
    pyStartswith (pyStrLower "en-US") "en" = true ∧
    App.download_subtitle successNet 10 recordEnUS ["en"] false "subtitle" =
      Except.ok ([⟨Json.str "v1", some "en", false, some "Language unavailable", "", none⟩],
        []) :=
  ⟨rfl, rfl⟩

/-- C3 amended: the CLI toolkit's subtitle matcher succeeds exactly when the
lower-cased descriptor code starts with the requested code (as passed, lower-cased by
the CLI entry point) and the format is webvtt; the Streamlit engine's matcher — used
for both subtitle and caption kinds — succeeds only on exact case-insensitive
equality of the codes (plus the webvtt format requirement). -/
theorem language_match_policy (lc fmt url lang : String) (expire : Int) :
    (CLI.subtitleMatches (Json.obj [("LanguageCodeName", Json.str lc),
        ("Format", Json.str fmt), ("Url", Json.str url), ("UrlExpire", Json.num expire)])
        lang = Except.ok true ↔
      (pyStartswith (pyStrLower lc) lang = true ∧ fmt = "webvtt")) ∧
    (App.mediaMatches (Json.obj [("LanguageCodeName", Json.str lc),
        ("Format", Json.str fmt), ("Url", Json.str url), ("UrlExpire", Json.num expire)])
        lang = Except.ok true ↔
      (pyStrLower lc = pyStrLower lang ∧ fmt = "webvtt")) := by
  constructor
  · simp [CLI.subtitleMatches, pyGetD, pyDictGet?, pyLower, bind, Except.bind]
  · simp [App.mediaMatches, pyGetD, pyDictGet?, pyLower, bind, Except.bind]

/-- C5 counterexample: for a matched but expired descriptor the CLI toolkit's failure
reason is exactly "Expired URL", not "Expired or invalid URL" as claimed (the run
shown issues no network request). -/
theorem expired_reason_cex :
    CLI.download_subtitle successNet 10 recordExpired ["en"] false true =
      Except.ok ([⟨Json.str "v1", some "en", false, some "Expired URL", some ""⟩], []) ∧
    "Expired URL" ≠ "Expired or invalid URL" :=
  ⟨rfl, by decide⟩

/-- C5 amended: when the matched descriptor fails the freshness check, the work unit
produces a failure result and issues no network request, with reason exactly
"Expired or invalid URL" in the Streamlit engine and exactly "Expired URL" in the
CLI toolkits. -/
theorem expired_descriptor_policy (net : Net) (now : Int) (vid mJ sJ : Json)
    (strip append_mode : Bool) (lang : String) (d : Json) :
    (∀ ms rest, asPyList mJ = Except.ok ms →
      exceptFilter (fun m => App.mediaMatches m lang) ms = Except.ok (d :: rest) →
      descFetchCheck d now = Except.ok false →
      App.processLang net now vid mJ strip lang =
        Except.ok ([⟨vid, some lang, false, some "Expired or invalid URL", "", none⟩], [])) ∧
    (∀ subs rest, asPyList sJ = Except.ok subs →
      exceptFilter (fun sub => CLI.subtitleMatches sub lang) subs = Except.ok (d :: rest) →
      descFetchCheck d now = Except.ok false →
      CLI.processLang net now vid sJ strip append_mode lang =
        Except.ok (⟨vid, some lang, false, some "Expired URL",
          if append_mode then some "" else none⟩, [])) := by
  constructor
  · intro ms rest hA hF hC
    cases h1 : pyGetD d "Url" Json.null with
    | error e => simp [descFetchCheck, h1, bind, Except.bind] at hC
    | ok url =>
        cases h2 : pyGetD d "UrlExpire" (Json.num 0) with
        | error e => simp [descFetchCheck, h1, h2, bind, Except.bind] at hC
        | ok ue =>
            have hcheck : fetchCheck url ue now = Except.ok false := by
              simpa [descFetchCheck, h1, h2, bind, Except.bind] using hC
            simp [App.processLang, App.processDesc, hA, hF, h1, h2, hcheck, bind, Except.bind]
  · intro subs rest hA hF hC
    cases h1 : pyGetD d "Url" Json.null with
    | error e => simp [descFetchCheck, h1, bind, Except.bind] at hC
    | ok url =>
        cases h2 : pyGetD d "UrlExpire" (Json.num 0) with
        | error e => simp [descFetchCheck, h1, h2, bind, Except.bind] at hC
        | ok ue =>
            have hcheck : fetchCheck url ue now = Except.ok false := by
              simpa [descFetchCheck, h1, h2, bind, Except.bind] using hC
            simp [CLI.processLang, CLI.processDesc, hA, hF, h1, h2, hcheck, bind, Except.bind]

/-- C5 witness: both branches of the amended statement evaluated on the expired
descriptor of `recordExpired` at time 10. -/
theorem expired_descriptor_policy_witness :
    App.processLang successNet 10 (Json.str "v1")
        (Json.arr [Json.obj [("LanguageCodeName", Json.str "en"),
          ("Format", Json.str "webvtt"), ("Url", Json.str "http://u1"),
          ("UrlExpire", Json.num 10)]]) false "en" =
      Except.ok ([⟨Json.str "v1", some "en", false, some "Expired or invalid URL", "", none⟩],
        []) ∧
    CLI.processLang successNet 10 (Json.str "v1")
        (Json.arr [Json.obj [("LanguageCodeName", Json.str "en"),
          ("Format", Json.str "webvtt"), ("Url", Json.str "http://u1"),
          ("UrlExpire", Json.num 10)]]) false true "en" =
      Except.ok (⟨Json.str "v1", some "en", false, some "Expired URL", some ""⟩, []) :=
  ⟨(expired_descriptor_policy successNet 10 (Json.str "v1")
      (Json.arr [Json.obj [("LanguageCodeName", Json.str "en"),
        ("Format", Json.str "webvtt"), ("Url", Json.str "http://u1"),
        ("UrlExpire", Json.num 10)]])
      (Json.arr [Json.obj [("LanguageCodeName", Json.str "en"),
        ("Format", Json.str "webvtt"), ("Url", Json.str "http://u1"),
        ("UrlExpire", Json.num 10)]]) false true "en"
      (Json.obj [("LanguageCodeName", Json.str "en"), ("Format", Json.str "webvtt"),
        ("Url", Json.str "http://u1"), ("UrlExpire", Json.num 10)])).1
      _ [] rfl rfl rfl,
    (expired_descriptor_policy successNet 10 (Json.str "v1")
      (Json.arr [Json.obj [("LanguageCodeName", Json.str "en"),
        ("Format", Json.str "webvtt"), ("Url", Json.str "http://u1"),
        ("UrlExpire", Json.num 10)]])
      (Json.arr [Json.obj [("LanguageCodeName", Json.str "en"),
        ("Format", Json.str "webvtt"), ("Url", Json.str "http://u1"),
        ("UrlExpire", Json.num 10)]]) false true "en"
      (Json.obj [("LanguageCodeName", Json.str "en"), ("Format", Json.str "webvtt"),
        ("Url", Json.str "http://u1"), ("UrlExpire", Json.num 10)])).2
      _ [] rfl rfl rfl⟩

/-- A successful non-empty fallible filter starts with the first element satisfying
the predicate: everything before it fails the predicate. -/
theorem exceptFilter_head {α : Type} (p : α → Except String Bool) :
    ∀ (l : List α) (d : α) (rest : List α),
      exceptFilter p l = Except.ok (d :: rest) →
      ∃ l1 l2, l = l1 ++ d :: l2 ∧ p d = Except.ok true ∧
        ∀ x ∈ l1, p x = Except.ok false := by
  intro l
  induction l with
  | nil => intro d rest h; simp [exceptFilter] at h
  | cons x xs ih =>
      intro d rest h
      cases hb : p x with
      | error e => simp [exceptFilter, hb, bind, Except.bind] at h
      | ok b =>
          cases hr : exceptFilter p xs with
          | error e => simp [exceptFilter, hb, hr, bind, Except.bind] at h
          | ok r =>
              simp only [exceptFilter, hb, hr, bind, Except.bind, Except.ok.injEq] at h
              cases b with
              | true =>
                  simp at h
                  obtain ⟨hxd, hrr⟩ := h
                  refine ⟨[], xs, ?_, ?_, ?_⟩
                  · rw [hxd]; rfl
                  · rw [← hxd]; exact hb
                  · intro y hy; cases hy
              | false =>
                  simp at h
                  obtain ⟨l1, l2, hsplit, hpd, hall⟩ := ih d rest (by rw [hr, h])
                  refine ⟨x :: l1, l2, by rw [hsplit]; rfl, hpd, ?_⟩
                  intro y hy
                  rcases List.mem_cons.mp hy with hyx | hyl
                  · rw [hyx]; exact hb
                  · exact hall y hyl

/-- C9: when no descriptor passes the format-and-language filter, the work unit fails
with reason exactly "Language unavailable" (both engines); when some descriptor
passes, both engines process exactly the first passing descriptor in the record's
original descriptor order (each engine under its own matcher). -/
theorem first_match_policy (net : Net) (now : Int) (vid sJ mJ : Json)
    (strip append_mode : Bool) (lang : String) :
    (∀ subs, asPyList sJ = Except.ok subs →
      exceptFilter (fun sub => CLI.subtitleMatches sub lang) subs = Except.ok [] →
      CLI.processLang net now vid sJ strip append_mode lang =
        Except.ok (⟨vid, some lang, false, some "Language unavailable",
          if append_mode then some "" else none⟩, [])) ∧
    (∀ ms, asPyList mJ = Except.ok ms →
      exceptFilter (fun m => App.mediaMatches m lang) ms = Except.ok [] →
      App.processLang net now vid mJ strip lang =
        Except.ok ([⟨vid, some lang, false, some "Language unavailable", "", none⟩], [])) ∧
    (∀ subs d rest, asPyList sJ = Except.ok subs →
      exceptFilter (fun sub => CLI.subtitleMatches sub lang) subs = Except.ok (d :: rest) →
      CLI.processLang net now vid sJ strip append_mode lang =
        CLI.processDesc net now vid d strip append_mode lang ∧
      ∃ l1 l2, subs = l1 ++ d :: l2 ∧ CLI.subtitleMatches d lang = Except.ok true ∧
        ∀ x ∈ l1, CLI.subtitleMatches x lang = Except.ok false) ∧
    (∀ ms d rest, asPyList mJ = Except.ok ms →
      exceptFilter (fun m => App.mediaMatches m lang) ms = Except.ok (d :: rest) →
      App.processLang net now vid mJ strip lang =
        App.processDesc net now vid d strip lang ∧
      ∃ l1 l2, ms = l1 ++ d :: l2 ∧ App.mediaMatches d lang = Except.ok true ∧
        ∀ x ∈ l1, App.mediaMatches x lang = Except.ok false) := by
  refine ⟨?_, ?_, ?_, ?_⟩
  · intro subs hA hF
    simp [CLI.processLang, hA, hF, bind, Except.bind]
  · intro ms hA hF
    simp [App.processLang, hA, hF, bind, Except.bind]
  · intro subs d rest hA hF
    constructor
    · simp [CLI.processLang, hA, hF, bind, Except.bind]
    · exact exceptFilter_head _ subs d rest hF
  · intro ms d rest hA hF
    constructor
    · simp [App.processLang, hA, hF, bind, Except.bind]
    · exact exceptFilter_head _ ms d rest hF

/-- C9 witness: a request for "fr" against an English-only record fails with
"Language unavailable" in both engines; against a record carrying two "en"
descriptors the first one (in original order) is the one processed, in both
engines. -/
theorem first_match_policy_witness :
    CLI.processLang successNet 10 (Json.str "v1") (Json.arr [descEnA]) false true "fr" =
      Except.ok (⟨Json.str "v1", some "fr", false, some "Language unavailable", some ""⟩,
        []) ∧
    App.processLang successNet 10 (Json.str "v1") (Json.arr [descEnA]) false "fr" =
      Except.ok ([⟨Json.str "v1", some "fr", false, some "Language unavailable", "", none⟩],
        []) ∧
    (CLI.processLang successNet 10 (Json.str "v1") (Json.arr [descEnA, descEnB])
        false true "en" =
      CLI.processDesc successNet 10 (Json.str "v1") descEnA false true "en" ∧
      ∃ l1 l2, [descEnA, descEnB] = l1 ++ descEnA :: l2 ∧
        CLI.subtitleMatches descEnA "en" = Except.ok true ∧
        ∀ x ∈ l1, CLI.subtitleMatches x "en" = Except.ok false) ∧
    (App.processLang successNet 10 (Json.str "v1") (Json.arr [descEnA, descEnB])
        false "en" =
      App.processDesc successNet 10 (Json.str "v1") descEnA false "en" ∧
      ∃ l1 l2, [descEnA, descEnB] = l1 ++ descEnA :: l2 ∧
        App.mediaMatches descEnA "en" = Except.ok true ∧
        ∀ x ∈ l1, App.mediaMatches x "en" = Except.ok false) :=
  ⟨(first_match_policy successNet 10 (Json.str "v1") (Json.arr [descEnA])
      (Json.arr [descEnA]) false true "fr").1 _ rfl rfl,
    (first_match_policy successNet 10 (Json.str "v1") (Json.arr [descEnA])
      (Json.arr [descEnA]) false true "fr").2.1 _ rfl rfl,
    (first_match_policy successNet 10 (Json.str "v1") (Json.arr [descEnA, descEnB])
      (Json.arr []) false true "en").2.2.1 _ _ _ rfl rfl,
    (first_match_policy successNet 10 (Json.str "v1") (Json.arr [])
      (Json.arr [descEnA, descEnB]) false true "en").2.2.2 _ _ _ rfl rfl⟩

/-- Lookup after a dict assignment. -/
theorem pyDictGet?_set {K V : Type} [DecidableEq K] (m : List (K × V)) (k : K) (v : V)
    (k' : K) :
    pyDictGet? (pyDictSet m k v) k' = if k = k' then some v else pyDictGet? m k' := by
  induction m with
  | nil => by_cases h : k = k' <;> simp [pyDictSet, pyDictGet?, h]
  | cons kv rest ih =>
      obtain ⟨k0, v0⟩ := kv
      by_cases h0 : k0 = k
      · subst h0
        by_cases h' : k0 = k' <;> simp [pyDictSet, pyDictGet?, h']
      · by_cases h' : k0 = k'
        · subst h'
          have hkk : ¬ k = k0 := fun h => h0 h.symm
          simp [pyDictSet, pyDictGet?, h0, hkk]
        · simp [pyDictSet, pyDictGet?, h0, h', ih]

/-- Ensuring a key's presence never changes a nested lookup. -/
theorem mapLookup2_ensureVid {V : Type} (m : List (Json × List (String × V))) (k vid : Json)
    (lang : String) :
    mapLookup2 (CLI.ensureVid m k) vid lang = mapLookup2 m vid lang := by
  unfold CLI.ensureVid
  by_cases hn : (pyDictGet? m k).isNone
  · simp only [hn, if_true]
    unfold mapLookup2
    rw [pyDictGet?_set]
    by_cases hk : k = vid
    · subst hk
      rw [Option.isNone_iff_eq_none] at hn
      simp [hn, pyDictGet?]
    · simp [hk]
  · simp [hn]

/-- After ensuring, the key is present, holding its old inner dict or a fresh one. -/
theorem ensureVid_get_self {V : Type} (m : List (Json × List (String × V))) (k : Json) :
    pyDictGet? (CLI.ensureVid m k) k = some ((pyDictGet? m k).getD []) := by
  unfold CLI.ensureVid
  cases hm : pyDictGet? m k with
  | none => simp [hm, pyDictGet?_set]
  | some inner => simp [hm]

/-- One CSV-map iteration either installs this result's cell at its key or leaves
every nested lookup unchanged. -/
theorem csvStep_lookup (m : List (Json × List (String × String))) (r : App.Result)
    (vid : Json) (lang : String) :
    mapLookup2 (App.csvStep m r) vid lang =
      if App.csvKeyB vid lang r then some (App.cellValue r)
      else mapLookup2 m vid lang := by
  simp only [App.csvStep]
  cases hl : r.language with
  | none => simp [App.csvKeyB, hl, mapLookup2_ensureVid]
  | some l =>
      simp only [mapLookup2]
      by_cases hid : r.id = vid
      · rw [pyDictGet?_set, if_pos hid, ensureVid_get_self]
        simp only [Option.some_bind, Option.getD_some]
        rw [pyDictGet?_set]
        by_cases hlang : l = lang
        · have hkey : App.csvKeyB vid lang r = true := by
            simp [App.csvKeyB, hl, hid, hlang]
          simp [hlang, hkey, App.cellValue]
        · have hkey : App.csvKeyB vid lang r = false := by
            simp [App.csvKeyB, hl, hlang]
          simp only [hkey, Bool.false_eq_true, if_false, if_neg hlang]
          rw [← hid]
          cases hm : pyDictGet? m r.id <;> simp [hm, pyDictGet?]
      · have hkey : App.csvKeyB vid lang r = false := by
          simp [App.csvKeyB, hid]
        rw [pyDictGet?_set, if_neg hid]
        simp only [hkey, Bool.false_eq_true, if_false]
        have h2 := mapLookup2_ensureVid m r.id vid lang
        simpa [mapLookup2] using h2

/-- One NDJSON-map iteration: only a successful result installs its content. -/
theorem ndjsonStep_lookup (m : List (Json × List (String × String))) (r : App.Result)
    (vid : Json) (lang : String) :
    mapLookup2 (App.ndjsonStep m r) vid lang =
      if App.ndjsonKeyB vid lang r then some r.content
      else mapLookup2 m vid lang := by
  simp only [App.ndjsonStep]
  cases hl : r.language with
  | none => simp [App.ndjsonKeyB, hl, mapLookup2_ensureVid]
  | some l =>
      cases hs : r.success with
      | false => simp [App.ndjsonKeyB, hs, mapLookup2_ensureVid]
      | true =>
          simp only [if_true, mapLookup2]
          by_cases hid : r.id = vid
          · rw [pyDictGet?_set, if_pos hid, ensureVid_get_self]
            simp only [Option.some_bind, Option.getD_some]
            rw [pyDictGet?_set]
            by_cases hlang : l = lang
            · have hkey : App.ndjsonKeyB vid lang r = true := by
                simp [App.ndjsonKeyB, hl, hid, hlang, hs]
              simp [hlang, hkey]
            · have hkey : App.ndjsonKeyB vid lang r = false := by
                simp [App.ndjsonKeyB, hl, hlang]
              simp only [hkey, Bool.false_eq_true, if_false, if_neg hlang]
              rw [← hid]
              cases hm : pyDictGet? m r.id <;> simp [hm, pyDictGet?]
          · have hkey : App.ndjsonKeyB vid lang r = false := by
              simp [App.ndjsonKeyB, hid]
            rw [pyDictGet?_set, if_neg hid]
            simp only [hkey, Bool.false_eq_true, if_false]
            have h2 := mapLookup2_ensureVid m r.id vid lang
            simpa [mapLookup2] using h2

/-- One CLI merged-map iteration: any result with a language installs its cell,
failures as the empty string. -/
theorem videoMapStep_lookup (m : List (Json × List (String × Option String)))
    (r : CLI.Result) (vid : Json) (lang : String) :
    mapLookup2 (CLI.videoMapStep m r) vid lang =
      if CLI.keyB vid lang r then some (CLI.cellValue r)
      else mapLookup2 m vid lang := by
  simp only [CLI.videoMapStep]
  cases hl : r.language with
  | none => simp [CLI.keyB, hl, mapLookup2_ensureVid]
  | some l =>
      simp only [mapLookup2]
      by_cases hid : r.id = vid
      · rw [pyDictGet?_set, if_pos hid, ensureVid_get_self]
        simp only [Option.some_bind, Option.getD_some]
        rw [pyDictGet?_set]
        by_cases hlang : l = lang
        · have hkey : CLI.keyB vid lang r = true := by
            simp [CLI.keyB, hl, hid, hlang]
          simp [hlang, hkey, CLI.cellValue]
        · have hkey : CLI.keyB vid lang r = false := by
            simp [CLI.keyB, hl, hlang]
          simp only [hkey, Bool.false_eq_true, if_false, if_neg hlang]
          rw [← hid]
          cases hm : pyDictGet? m r.id <;> simp [hm, pyDictGet?]
      · have hkey : CLI.keyB vid lang r = false := by
          simp [CLI.keyB, hid]
        rw [pyDictGet?_set, if_neg hid]
        simp only [hkey, Bool.false_eq_true, if_false]
        have h2 := mapLookup2_ensureVid m r.id vid lang
        simpa [mapLookup2] using h2

/-- Folding any map-building step whose effect on one key is described by `p` and `f`
yields, at that key, the cell of the *last* matching element. -/
theorem foldl_lookup_lastP {α V : Type}
    (step : List (Json × List (String × V)) → α → List (Json × List (String × V)))
    (p : α → Bool) (f : α → V) (vid : Json) (lang : String)
    (hstep : ∀ m r, mapLookup2 (step m r) vid lang =
      if p r then some (f r) else mapLookup2 m vid lang) :
    ∀ (rs : List α) (m : List (Json × List (String × V))),
      mapLookup2 (List.foldl step m rs) vid lang =
        match findLastP p rs with
        | some r => some (f r)
        | none => mapLookup2 m vid lang := by
  intro rs
  induction rs with
  | nil => intro m; simp [findLastP]
  | cons r rest ih =>
      intro m
      rw [List.foldl_cons, ih]
      cases hf : findLastP p rest with
      | some y => simp [findLastP, hf]
      | none =>
          simp only [findLastP, hf, hstep]
          by_cases hp : p r <;> simp [hp]

/-- `findLastP` finds nothing iff nothing matches. -/
theorem findLastP_eq_none {α : Type} (p : α → Bool) :
    ∀ l : List α, findLastP p l = none ↔ ∀ x ∈ l, p x = false := by
  intro l
  induction l with
  | nil => simp [findLastP]
  | cons x xs ih =>
      simp only [findLastP]
      cases hf : findLastP p xs with
      | some y =>
          simp only [reduceCtorEq, false_iff]
          intro hall
          have : ∀ z ∈ xs, p z = false := fun z hz => hall z (List.mem_cons_of_mem _ hz)
          rw [← ih] at this
          rw [this] at hf
          cases hf
      | none =>
          by_cases hp : p x
          · rw [if_pos hp]
            simp only [reduceCtorEq, false_iff]
            intro hall
            have := hall x (List.mem_cons_self x xs)
            rw [hp] at this
            cases this
          · rw [if_neg hp]
            simp only [eq_self_iff_true, true_iff]
            intro z hz
            rcases List.mem_cons.mp hz with h | h
            · rw [h]; simpa using hp
            · exact (ih.mp hf) z h

/-- Whatever `findLastP` finds is in the list and matches. -/
theorem findLastP_some_mem {α : Type} (p : α → Bool) :
    ∀ (l : List α) (y : α), findLastP p l = some y → y ∈ l ∧ p y = true := by
  intro l
  induction l with
  | nil => intro y h; simp [findLastP] at h
  | cons x xs ih =>
      intro y h
      simp only [findLastP] at h
      cases hf : findLastP p xs with
      | some z =>
          rw [hf] at h
          obtain ⟨hz, hpz⟩ := ih z hf
          cases h
          exact ⟨List.mem_cons_of_mem _ hz, hpz⟩
      | none =>
          rw [hf] at h
          by_cases hp : p x
          · rw [if_pos hp] at h
            cases h
            exact ⟨List.mem_cons_self _ _, hp⟩
          · rw [if_neg hp] at h
            cases h

/-- C6 amended: in the CLI toolkits' merged-record map an (identity, language) key is
present exactly when some Result carries it, with failed Results contributing the
empty string; in the Streamlit NDJSON map a key is present only when a *successful*
Result carries it — failed Results leave their language key out. -/
theorem merged_map_key_policy (rsC : List CLI.Result) (rsA : List App.Result)
    (vid : Json) (lang : String) :
    ((mapLookup2 (CLI.buildVideoMap rsC) vid lang).isSome = true ↔
      ∃ r ∈ rsC, r.id = vid ∧ r.language = some lang) ∧
    ((mapLookup2 (App.buildNdjsonMap rsA) vid lang).isSome = true ↔
      ∃ r ∈ rsA, r.id = vid ∧ r.language = some lang ∧ r.success = true) ∧
    ((∃ r ∈ rsC, r.id = vid ∧ r.language = some lang) →
      (∀ r ∈ rsC, r.id = vid → r.language = some lang → r.success = false) →
      mapLookup2 (CLI.buildVideoMap rsC) vid lang = some (some "")) := by
  have hC := foldl_lookup_lastP CLI.videoMapStep (CLI.keyB vid lang) CLI.cellValue vid lang
    (fun m r => videoMapStep_lookup m r vid lang) rsC []
  have hA := foldl_lookup_lastP App.ndjsonStep (App.ndjsonKeyB vid lang)
    (fun r => r.content) vid lang (fun m r => ndjsonStep_lookup m r vid lang) rsA []
  have hnil : ∀ V : Type, mapLookup2 ([] : List (Json × List (String × V))) vid lang = none := by
    intro V; simp [mapLookup2, pyDictGet?]
  rw [hnil] at hC hA
  refine ⟨?_, ?_, ?_⟩
  · rw [CLI.buildVideoMap, hC]
    cases hfl : findLastP (CLI.keyB vid lang) rsC with
    | some r =>
        obtain ⟨hmem, hkey⟩ := findLastP_some_mem _ rsC r hfl
        simp only [Option.isSome_some, true_iff]
        simp only [CLI.keyB, Bool.and_eq_true, decide_eq_true_eq] at hkey
        exact ⟨r, hmem, hkey.1, hkey.2⟩
    | none =>
        simp only [Option.isSome_none, Bool.false_eq_true, false_iff]
        intro ⟨r, hmem, hid, hlang⟩
        have := (findLastP_eq_none _ rsC).mp hfl r hmem
        simp [CLI.keyB, hid, hlang] at this
  · rw [App.buildNdjsonMap, hA]
    cases hfl : findLastP (App.ndjsonKeyB vid lang) rsA with
    | some r =>
        obtain ⟨hmem, hkey⟩ := findLastP_some_mem _ rsA r hfl
        simp only [Option.isSome_some, true_iff]
        simp only [App.ndjsonKeyB, Bool.and_eq_true, decide_eq_true_eq] at hkey
        exact ⟨r, hmem, hkey.1.1, hkey.1.2, hkey.2⟩
    | none =>
        simp only [Option.isSome_none, Bool.false_eq_true, false_iff]
        intro ⟨r, hmem, hid, hlang, hsucc⟩
        have := (findLastP_eq_none _ rsA).mp hfl r hmem
        simp [App.ndjsonKeyB, hid, hlang, hsucc] at this
  · intro ⟨r, hmem, hid, hlang⟩ hall
    rw [CLI.buildVideoMap, hC]
    cases hfl : findLastP (CLI.keyB vid lang) rsC with
    | some y =>
        obtain ⟨hymem, hykey⟩ := findLastP_some_mem _ rsC y hfl
        simp only [CLI.keyB, Bool.and_eq_true, decide_eq_true_eq] at hykey
        have hyfail := hall y hymem hykey.1 hykey.2
        simp [CLI.cellValue, hyfail]
    | none =>
        have := (findLastP_eq_none _ rsC).mp hfl r hmem
        simp [CLI.keyB, hid, hlang] at this

/-- C6 counterexample: a failed Streamlit Result for a requested language leaves its
key out of the NDJSON merged map entirely, instead of contributing an empty string. -/
theorem ndjson_failure_key_cex :
    (⟨Json.str "v1", some "en", false, some "Expired or invalid URL", "",
      none⟩ : App.Result).language = some "en" ∧
    mapLookup2 (App.buildNdjsonMap
        [⟨Json.str "v1", some "en", false, some "Expired or invalid URL", "", none⟩])
      (Json.str "v1") "en" = none :=
  ⟨rfl, rfl⟩

/-- C6 witness: the amended statement evaluated on a one-element CLI result stream
whose only result failed — the key is present and maps to the empty string. -/
theorem merged_map_key_policy_witness :
    mapLookup2 (CLI.buildVideoMap
        [⟨Json.str "v1", some "en", false, some "Expired URL", some ""⟩])
      (Json.str "v1") "en" = some (some "") :=
  (merged_map_key_policy
      [⟨Json.str "v1", some "en", false, some "Expired URL", some ""⟩] []
      (Json.str "v1") "en").2.2
    ⟨⟨Json.str "v1", some "en", false, some "Expired URL", some ""⟩,
      List.mem_singleton.mpr rfl, rfl, rfl⟩
    (by
      intro r hr h1 h2
      rw [List.mem_singleton.mp hr])

/-- A carriage return is a line boundary. -/
theorem isLineBreakChar_cr : isLineBreakChar '\r' = true := by decide

/-- A newline is a line boundary. -/
theorem isLineBreakChar_nl : isLineBreakChar '\n' = true := by decide

/-- On boundary-free input the splitter yields the single accumulated line (or
nothing when there is nothing at all). -/
theorem splitlinesGo_no_break (cs : List Char) :
    ∀ acc : List Char, (∀ c ∈ cs, isLineBreakChar c = false) →
      splitlinesGo cs acc =
        if acc.isEmpty && cs.isEmpty then [] else [String.mk (acc.reverse ++ cs)] := by
  induction cs with
  | nil =>
      intro acc hbf
      rw [splitlinesGo.eq_def]
      cases acc <;> simp
  | cons c rest ih =>
      intro acc hbf
      have hc : isLineBreakChar c = false := hbf c (List.mem_cons_self _ _)
      have hcr : ¬ c = '\r' := by
        intro h; rw [h, isLineBreakChar_cr] at hc; cases hc
      rw [splitlinesGo.eq_def]
      simp only [if_neg hcr, hc, Bool.false_eq_true, if_false]
      rw [ih (c :: acc) (fun d hd => hbf d (List.mem_cons_of_mem _ hd))]
      simp

/-- Splitting a boundary-free prefix followed by a newline emits that prefix as one
line and continues after the newline. -/
theorem splitlinesGo_newline (p : List Char) :
    ∀ (rest acc : List Char), (∀ c ∈ p, isLineBreakChar c = false) →
      splitlinesGo (p ++ '\n' :: rest) acc =
        String.mk (acc.reverse ++ p) :: splitlinesGo rest [] := by
  induction p with
  | nil =>
      intro rest acc _
      rw [List.nil_append, splitlinesGo.eq_def]
      simp [isLineBreakChar_nl]
  | cons c p' ih =>
      intro rest acc hbf
      have hc : isLineBreakChar c = false := hbf c (List.mem_cons_self _ _)
      have hcr : ¬ c = '\r' := by
        intro h; rw [h, isLineBreakChar_cr] at hc; cases hc
      rw [List.cons_append, splitlinesGo.eq_def]
      simp only [if_neg hcr, hc, Bool.false_eq_true, if_false]
      rw [ih rest (c :: acc) (fun d hd => hbf d (List.mem_cons_of_mem _ hd))]
      simp

/-- Rejoining nonempty boundary-free lines with a single newline and splitting again
is the identity. -/
theorem splitlines_joinNL :
    ∀ ps : List String,
      (∀ p ∈ ps, p.data ≠ [] ∧ ∀ c ∈ p.data, isLineBreakChar c = false) →
      pySplitlines (joinNL ps) = ps := by
  intro ps
  induction ps with
  | nil => intro _; rfl
  | cons p qs ih =>
      intro hps
      obtain ⟨hpne, hpbf⟩ := hps p (List.mem_cons_self _ _)
      cases qs with
      | nil =>
          show splitlinesGo p.data [] = [p]
          rw [splitlinesGo_no_break p.data [] hpbf]
          have : p.data.isEmpty = false := by
            cases hd : p.data with
            | nil => exact absurd hd hpne
            | cons a l => rfl
          simp [this]
      | cons q rs =>
          show splitlinesGo (joinNL (p :: q :: rs)).data [] = p :: q :: rs
          have hdata : (joinNL (p :: q :: rs)).data = p.data ++ '\n' :: (joinNL (q :: rs)).data := by
            show (p ++ "\n" ++ joinNL (q :: rs)).data = _
            rw [String.data_appendStr, String.data_appendStr]
            simp [List.append_assoc]
          rw [hdata, splitlinesGo_newline p.data _ [] hpbf]
          have := ih (fun r hr => hps r (List.mem_cons_of_mem _ hr))
          rw [show splitlinesGo (joinNL (q :: rs)).data [] = pySplitlines (joinNL (q :: rs)) from rfl,
            this]
          simp

/-- Every piece produced by the splitter is free of line-boundary characters. -/
theorem splitlines_pieces_bf :
    ∀ (n : Nat) (cs acc : List Char), cs.length ≤ n →
      (∀ c ∈ acc, isLineBreakChar c = false) →
      ∀ p ∈ splitlinesGo cs acc, ∀ ch ∈ p.data, isLineBreakChar ch = false := by
  intro n
  induction n with
  | zero =>
      intro cs acc hlen hacc p hp ch hch
      have hnil : cs = [] := List.eq_nil_of_length_eq_zero (Nat.le_zero.mp hlen)
      subst hnil
      rw [splitlinesGo.eq_def] at hp
      by_cases he : acc.isEmpty
      · simp [he] at hp
      · simp [he] at hp
        subst hp
        exact hacc ch (by simpa using hch)
  | succ n ih =>
      intro cs acc hlen hacc p hp ch hch
      cases cs with
      | nil =>
          rw [splitlinesGo.eq_def] at hp
          by_cases he : acc.isEmpty
          · simp [he] at hp
          · simp [he] at hp
            subst hp
            exact hacc ch (by simpa using hch)
      | cons c rest =>
          have hlen' : rest.length ≤ n := Nat.le_of_succ_le_succ hlen
          by_cases hcr : c = '\r'
          · rw [splitlinesGo.eq_def] at hp
            simp only [hcr, if_pos rfl] at hp
            rcases List.mem_cons.mp hp with hph | hpt
            · subst hph
              exact hacc ch (by simpa using hch)
            · cases rest with
              | nil => cases hpt
              | cons d rest2 =>
                  by_cases hd : d = '\n'
                  · simp only [hd, if_pos rfl] at hpt
                    exact ih rest2 []
                      (Nat.le_trans (Nat.le_succ _) hlen') (by intro x hx; cases hx)
                      p hpt ch hch
                  · simp only [if_neg hd] at hpt
                    exact ih (d :: rest2) [] hlen' (by intro x hx; cases hx) p hpt ch hch
          · by_cases hb : isLineBreakChar c
            · rw [splitlinesGo.eq_def] at hp
              simp only [if_neg hcr, hb, if_true] at hp
              rcases List.mem_cons.mp hp with hph | hpt
              · subst hph
                exact hacc ch (by simpa using hch)
              · exact ih rest [] hlen' (by intro x hx; cases hx) p hpt ch hch
            · rw [splitlinesGo.eq_def] at hp
              have hb' : isLineBreakChar c = false := by
                cases hbc : isLineBreakChar c
                · rfl
                · exact absurd hbc hb
              simp only [if_neg hcr, hb', Bool.false_eq_true, if_false] at hp
              refine ih rest (c :: acc) hlen' ?_ p hp ch hch
              intro x hx
              rcases List.mem_cons.mp hx with h | h
              · rw [h]; exact hb'
              · exact hacc x h

/-- A line kept by the normalizer is nonempty. -/
theorem keepLine_ne_empty (p : String) (h : keepLine p = true) : p.data ≠ [] := by
  intro hnil
  have hp : p = "" := by
    cases p with
    | mk d => cases hnil; rfl
  rw [hp] at h
  exact absurd h (by decide)

/-- C8: normalization with stripping is idempotent. -/
theorem parse_webvtt_idempotent (x : String) :
    parse_webvtt (parse_webvtt x true) true = parse_webvtt x true := by
  have hform : ∀ s : String, parse_webvtt s true = joinNL ((pySplitlines s).filter keepLine) := by
    intro s
    show joinNL (parseWebvttGo (pySplitlines s) []) = _
    rw [parseWebvttGo_eq_filter]
    rfl
  have hbf : ∀ p ∈ (pySplitlines x).filter keepLine,
      p.data ≠ [] ∧ ∀ c ∈ p.data, isLineBreakChar c = false := by
    intro p hp
    refine ⟨keepLine_ne_empty p (List.of_mem_filter hp), ?_⟩
    intro c hc
    exact splitlines_pieces_bf x.data.length x.data [] le_rfl (by intro y hy; cases hy)
      p (List.mem_of_mem_filter hp) c hc
  have hround : pySplitlines (joinNL ((pySplitlines x).filter keepLine)) =
      (pySplitlines x).filter keepLine :=
    splitlines_joinNL _ hbf
  rw [hform x, hform (joinNL ((pySplitlines x).filter keepLine)), hround,
    List.filter_eq_self.mpr (fun p hp => List.of_mem_filter hp)]

/-- A list matching the timestamp shape has exactly 12 characters. -/
theorem tsShape_length (l : List Char) (h : tsShape l = true) : l.length = 12 := by
  rw [tsShape.eq_def] at h
  split at h
  · rename_i d1 d2 c1 d3 d4 c2 d5 d6 dot d7 d8 d9
    rfl
  · cases h

/-- A list matching the timestamp shape starts with a digit. -/
theorem tsShape_first (l : List Char) (h : tsShape l = true) :
    ∃ d l', l = d :: l' ∧ d.isDigit = true := by
  rw [tsShape.eq_def] at h
  split at h
  · rename_i d1 d2 c1 d3 d4 c2 d5 d6 dot d7 d8 d9
    refine ⟨d1, _, rfl, ?_⟩
    simp only [allDigits, List.all_cons, Bool.and_eq_true] at h
    exact h.1.1.1.1
  · cases h

/-- What a successful timestamp consumption tells us about the input. -/
theorem eatTimestamp_some (cs : List Char) (r : List Char)
    (h : eatTimestamp cs = some r) :
    tsShape (cs.take 12) = true ∧ r = cs.drop 12 ∧ 12 ≤ cs.length := by
  unfold eatTimestamp at h
  by_cases hsh : tsShape (cs.take 12)
  · rw [if_pos hsh] at h
    injection h with h
    refine ⟨hsh, h.symm, ?_⟩
    have h12 := tsShape_length _ hsh
    rw [List.length_take] at h12
    omega
  · rw [if_neg hsh] at h
    cases h

/-- Consuming a timestamp is stable under appending a suffix. -/
theorem eatTimestamp_append (cs ys r : List Char) (h : eatTimestamp cs = some r) :
    eatTimestamp (cs ++ ys) = some (r ++ ys) := by
  obtain ⟨hsh, hr, hlen⟩ := eatTimestamp_some cs r h
  unfold eatTimestamp
  rw [List.take_append_of_le_length hlen, if_pos hsh,
    List.drop_append_of_le_length hlen, hr]

/-- A decimal digit is not Python whitespace. -/
theorem digit_not_space (d : Char) (hd : d.isDigit = true) : pyIsSpace d = false := by
  cases hsp : pyIsSpace d
  · rfl
  · exfalso
    simp only [pyIsSpace, Bool.or_eq_true, decide_eq_true_eq] at hsp
    rcases hsp with ((((((h | h) | h) | h) | h) | h) | h) <;>
      rw [h] at hd <;> exact absurd hd (by decide)

/-- A string whose first character is not whitespace does not strip to empty. -/
theorem pyStrip_ne_empty (u : String) (d : Char) (tail : List Char)
    (hu : u.data = d :: tail) (hd : pyIsSpace d = false) : ¬ pyStrip u = "" := by
  intro hstrip
  unfold pyStrip at hstrip
  rw [hu, List.dropWhile_cons, hd] at hstrip
  simp only [Bool.false_eq_true, if_false] at hstrip
  have hdata : ((d :: tail).reverse.dropWhile pyIsSpace).reverse = [] :=
    congrArg String.data hstrip
  rw [List.reverse_eq_nil_iff] at hdata
  have := List.dropWhile_eq_nil_iff.mp hdata d (by simp)
  rw [hd] at this
  cases this

/-- C10: the timecode-dropping rule is fully anchored.  For any line of the input of
the form `timecode-range ++ extra` with nonempty `extra` (for example trailing cue
settings), the regex does not match, and the line survives into the output of
`parse_webvtt(_, True)`. -/
theorem timecode_rule_anchored (s t input : String)
    (hs : matchTimecodeLine s = true) (ht : t ≠ "")
    (hline : (s ++ t) ∈ pySplitlines input) :
    matchTimecodeLine (s ++ t) = false ∧
    (s ++ t) ∈ pySplitlines (parse_webvtt input true) := by
  have hbfAll : ∀ c ∈ (s ++ t).data, isLineBreakChar c = false := fun c hc =>
    splitlines_pieces_bf input.data.length input.data [] le_rfl
      (by intro y hy; cases hy) (s ++ t) hline c hc
  have htd : t.data ≠ [] := by
    intro h
    apply ht
    cases t with
    | mk dd => cases h; rfl
  have htnl : t.data ≠ ['\n'] := by
    intro h
    have hmem : '\n' ∈ (s ++ t).data := by
      rw [String.data_appendStr, h]
      simp
    have hh := hbfAll '\n' hmem
    rw [isLineBreakChar_nl] at hh
    cases hh
  rw [matchTimecodeLine.eq_def] at hs
  cases h1 : eatTimestamp s.data with
  | none => rw [h1] at hs; exact absurd hs (by decide)
  | some rest1 =>
  rw [h1] at hs
  rcases rest1 with _ | ⟨c1, _ | ⟨c2, _ | ⟨c3, _ | ⟨c4, _ | ⟨c5, rest2⟩⟩⟩⟩⟩
  · simp at hs
  · simp at hs
  · simp at hs
  · simp at hs
  · simp at hs
  simp only [Bool.and_eq_true, decide_eq_true_eq] at hs
  obtain ⟨⟨⟨⟨⟨hc1, hc2⟩, hc3⟩, hc4⟩, hc5⟩, hinner⟩ := hs
  subst hc1; subst hc2; subst hc3; subst hc4; subst hc5
  cases h2 : eatTimestamp rest2 with
  | none => rw [h2] at hinner; exact absurd hinner (by decide)
  | some r =>
  rw [h2] at hinner
  simp only [Bool.or_eq_true, decide_eq_true_eq] at hinner
  have hsplit := eatTimestamp_some _ _ h1
  have hsplit2 := eatTimestamp_some _ _ h2
  have hrbf : ∀ c ∈ r, isLineBreakChar c = false := by
    intro c hc
    apply hbfAll
    rw [String.data_appendStr]
    apply List.mem_append_left
    have h_r2 : c ∈ rest2 := by
      rw [hsplit2.2.1] at hc
      exact List.mem_of_mem_drop hc
    have h_r1 : c ∈ ' ' :: '-' :: '-' :: '>' :: ' ' :: rest2 := by simp [h_r2]
    rw [hsplit.2.1] at h_r1
    exact List.mem_of_mem_drop h_r1
  have hrn : r ≠ ['\n'] := by
    intro h
    have hm : '\n' ∈ r := by rw [h]; simp
    have hh := hrbf '\n' hm
    rw [isLineBreakChar_nl] at hh
    cases hh
  have hre : r = [] := by
    rcases hinner with h | h
    · exact h
    · exact absurd h hrn
  subst hre
  have happ1 : eatTimestamp ((s ++ t).data) =
      some ((' ' :: '-' :: '-' :: '>' :: ' ' :: rest2) ++ t.data) := by
    rw [String.data_appendStr]
    exact eatTimestamp_append _ _ _ h1
  have happ2 : eatTimestamp (rest2 ++ t.data) = some t.data :=
    eatTimestamp_append _ _ _ h2
  have hmatch : matchTimecodeLine (s ++ t) = false := by
    rw [matchTimecodeLine.eq_def, happ1]
    simp only [List.cons_append]
    simp [happ2, htd, htnl]
  refine ⟨hmatch, ?_⟩
  obtain ⟨d, l', htake, hdig⟩ := tsShape_first _ hsplit.1
  have hsdata : ∃ tail, s.data = d :: tail := by
    cases hsd : s.data with
    | nil => rw [hsd] at htake; cases htake
    | cons a as =>
        rw [hsd] at htake
        rw [show (12 : Nat) = 11 + 1 from rfl, List.take_succ_cons] at htake
        have := (List.cons.inj htake).1
        exact ⟨as, by rw [this]⟩
  obtain ⟨tail, hsd⟩ := hsdata
  have hstd : (s ++ t).data = d :: (tail ++ t.data) := by
    rw [String.data_appendStr, hsd]
    rfl
  have hdW : pyStartswith (s ++ t) "WEBVTT" = false := by
    have hWd : ¬ ('W' = d) := by
      intro h
      rw [← h] at hdig
      exact absurd hdig (by decide)
    unfold pyStartswith
    rw [hstd]
    show listIsPrefix ('W' :: "EBVTT".data) (d :: (tail ++ t.data)) = false
    simp [listIsPrefix, hWd]
  have hdsp : pyIsSpace d = false := digit_not_space d hdig
  have hstrip : ¬ pyStrip (s ++ t) = "" := pyStrip_ne_empty _ d _ hstd hdsp
  have hkeep : keepLine (s ++ t) = true := by
    simp [keepLine, hmatch, hdW, hstrip]
  have hform : parse_webvtt input true = joinNL ((pySplitlines input).filter keepLine) := by
    show joinNL (parseWebvttGo (pySplitlines input) []) = _
    rw [parseWebvttGo_eq_filter]
    rfl
  have hbf : ∀ p ∈ (pySplitlines input).filter keepLine,
      p.data ≠ [] ∧ ∀ c ∈ p.data, isLineBreakChar c = false := by
    intro p hp
    exact ⟨keepLine_ne_empty p (List.of_mem_filter hp), fun c hc =>
      splitlines_pieces_bf input.data.length input.data [] le_rfl (by intro y hy; cases hy)
        p (List.mem_of_mem_filter hp) c hc⟩
  rw [hform, splitlines_joinNL _ hbf]
  exact List.mem_filter.mpr ⟨hline, hkeep⟩

/-- C10 witness: a concrete cue-settings line `timecode ++ " align:start"` is not
dropped and survives into the normalized output. -/
theorem timecode_rule_anchored_witness :
    matchTimecodeLine ("00:00:01.000 --> 00:00:02.000" ++ " align:start") = false ∧
    ("00:00:01.000 --> 00:00:02.000" ++ " align:start") ∈
      pySplitlines (parse_webvtt
        "WEBVTT\n00:00:01.000 --> 00:00:02.000 align:start\nHello" true) :=
  timecode_rule_anchored "00:00:01.000 --> 00:00:02.000" " align:start"
    "WEBVTT\n00:00:01.000 --> 00:00:02.000 align:start\nHello" rfl (by decide) (by decide)

/-- When every fetch succeeds, each language iteration of the Streamlit engine that
completes without an exception appends exactly one result. -/
theorem appProcessLang_length (net : Net) (now : Int) (vid mJ : Json) (strip : Bool)
    (lang : String) (rs1 : List App.Result) (calls : List Json)
    (hnet : ∀ u, (net u).isSuccess = true)
    (h : App.processLang net now vid mJ strip lang = Except.ok (rs1, calls)) :
    rs1.length = 1 := by
  unfold App.processLang at h
  cases hA : asPyList mJ with
  | error e => rw [hA] at h; simp [bind, Except.bind] at h
  | ok ms =>
  rw [hA] at h
  simp only [bind, Except.bind] at h
  cases hF : exceptFilter (fun m => App.mediaMatches m lang) ms with
  | error e => rw [hF] at h; simp at h
  | ok matching =>
  rw [hF] at h
  dsimp only at h
  cases matching with
  | nil =>
      simp only [Except.ok.injEq, Prod.mk.injEq] at h
      rw [← h.1]
      rfl
  | cons m rest =>
  dsimp only at h
  unfold App.processDesc at h
  simp only [bind, Except.bind] at h
  cases hU : pyGetD m "Url" Json.null with
  | error e => rw [hU] at h; simp at h
  | ok url =>
  rw [hU] at h
  dsimp only at h
  cases hE : pyGetD m "UrlExpire" (Json.num 0) with
  | error e => rw [hE] at h; simp at h
  | ok ue =>
  rw [hE] at h
  dsimp only at h
  cases hC : fetchCheck url ue now with
  | error e => rw [hC] at h; simp at h
  | ok b =>
  rw [hC] at h
  dsimp only at h
  cases b with
  | false =>
      simp only [Bool.false_eq_true, if_false, Except.ok.injEq, Prod.mk.injEq] at h
      rw [← h.1]
      rfl
  | true =>
      cases hN : net url with
      | success body =>
          rw [hN] at h
          simp only [if_true, Except.ok.injEq, Prod.mk.injEq] at h
          rw [← h.1]
          rfl
      | timeout =>
          have hh := hnet url
          rw [hN] at hh
          cases hh
      | httpError code =>
          have hh := hnet url
          rw [hN] at hh
          cases hh
      | netError msg =>
          have hh := hnet url
          rw [hN] at hh
          cases hh

/-- When every fetch succeeds, an exception-free language loop of the Streamlit
engine produces exactly one result per requested language. -/
theorem appLangLoop_length (net : Net) (now : Int) (vid mJ : Json) (strip : Bool)
    (hnet : ∀ u, (net u).isSuccess = true) :
    ∀ (languages : List String) (rs : List App.Result) (calls : List Json),
      App.langLoop net now vid mJ strip languages = Except.ok (rs, calls) →
      rs.length = languages.length := by
  intro languages
  induction languages with
  | nil =>
      intro rs calls h
      simp only [App.langLoop, Except.ok.injEq, Prod.mk.injEq] at h
      rw [← h.1]
      rfl
  | cons lang rest ih =>
      intro rs calls h
      unfold App.langLoop at h
      cases hP : App.processLang net now vid mJ strip lang with
      | error e => rw [hP] at h; simp at h
      | ok pr =>
          obtain ⟨rs1, calls1⟩ := pr
          rw [hP] at h
          dsimp only at h
          cases hL : App.langLoop net now vid mJ strip rest with
          | error e2 =>
              obtain ⟨e2a, e2b, e2c⟩ := e2
              rw [hL] at h
              simp at h
          | ok pr2 =>
              obtain ⟨rs2, calls2⟩ := pr2
              rw [hL] at h
              dsimp only at h
              simp only [Except.ok.injEq, Prod.mk.injEq] at h
              rw [← h.1, List.length_append,
                appProcessLang_length net now vid mJ strip lang rs1 calls1 hnet hP,
                ih rs2 calls2 hL, List.length_cons]
              omega

/-- A successful Streamlit `try:` block is exactly a successful language loop over
the extracted media descriptors. -/
theorem appDownloadTry_langLoop (net : Net) (now : Int) (item : Json)
    (languages : List String) (strip : Bool) (find_type : String)
    (out : List App.Result × List Json)
    (h : App.downloadTry net now item languages strip find_type = Except.ok out) :
    ∃ vid mJ, App.langLoop net now vid mJ strip languages = Except.ok out := by
  unfold App.downloadTry at h
  cases h1 : pyGetD item "data" (Json.obj []) with
  | error e => rw [h1] at h; simp [App.liftErrA, bind, Except.bind] at h
  | ok data_content =>
  rw [h1] at h
  simp only [App.liftErrA, bind, Except.bind] at h
  cases h2 : pyGetD data_content "id" (Json.str "unknown") with
  | error e => rw [h2] at h; simp at h
  | ok fallback =>
  rw [h2] at h
  dsimp only at h
  cases h3 : pyGetD data_content "item_id" fallback with
  | error e => rw [h3] at h; simp at h
  | ok video_id =>
  rw [h3] at h
  dsimp only at h
  cases h4 : pyGetD data_content "video" (Json.obj []) with
  | error e => rw [h4] at h; simp at h
  | ok video_content =>
  rw [h4] at h
  dsimp only at h
  cases h5 : App.get_media_info video_content find_type with
  | error e => rw [h5] at h; simp at h
  | ok media_infosJ =>
  rw [h5] at h
  dsimp only at h
  exact ⟨video_id, media_infosJ, h⟩

/-- When every fetch succeeds, an exception-free Streamlit work item yields exactly
one result per requested language. -/
theorem appDownload_length (net : Net) (now : Int) (item : Json)
    (languages : List String) (strip : Bool) (find_type : String)
    (rs : List App.Result) (calls : List Json)
    (hnet : ∀ u, (net u).isSuccess = true)
    (hok : exceptIsOk (App.downloadTry net now item languages strip find_type) = true)
    (h : App.download_subtitle net now item languages strip find_type =
      Except.ok (rs, calls)) :
    rs.length = languages.length := by
  cases hT : App.downloadTry net now item languages strip find_type with
  | error e => rw [hT] at hok; cases hok
  | ok out =>
      have hd : App.download_subtitle net now item languages strip find_type =
          Except.ok out := by
        unfold App.download_subtitle
        rw [hT]
      rw [h] at hd
      obtain ⟨vid, mJ, hL⟩ := appDownloadTry_langLoop net now item languages strip
        find_type out hT
      have hout : out = (rs, calls) := (Except.ok.inj hd).symm
      rw [hout] at hL
      exact appLangLoop_length net now vid mJ strip hnet languages rs calls hL

/-- When every fetch succeeds and no item raises, a run over `order` produces
`|order| × |languages|` results. -/
theorem appRunOrder_length (net : Net) (now : Int) (languages : List String)
    (strip : Bool) (find_type : String)
    (hnet : ∀ u, (net u).isSuccess = true) :
    ∀ order : List Json,
      (∀ item ∈ order,
        exceptIsOk (App.downloadTry net now item languages strip find_type) = true) →
      ∃ rs, App.runOrder net now order languages strip find_type = Except.ok rs ∧
        rs.length = order.length * languages.length := by
  intro order
  induction order with
  | nil => intro _; exact ⟨[], rfl, by simp⟩
  | cons item rest ih =>
      intro hall
      have hokI := hall item (List.mem_cons_self _ _)
      cases hT : App.downloadTry net now item languages strip find_type with
      | error e => rw [hT] at hokI; cases hokI
      | ok out =>
          obtain ⟨rs2, hrun2, hlen2⟩ := ih (fun it hmem => hall it (List.mem_cons_of_mem _ hmem))
          obtain ⟨rs1, calls1⟩ := out
          have hd : App.download_subtitle net now item languages strip find_type =
              Except.ok (rs1, calls1) := by
            unfold App.download_subtitle
            rw [hT]
          have hlen1 : rs1.length = languages.length :=
            appDownload_length net now item languages strip find_type rs1 calls1 hnet
              (by rw [hT]; rfl) hd
          refine ⟨rs1 ++ rs2, ?_, ?_⟩
          · unfold App.runOrder
            rw [hd]
            simp only [bind, Except.bind]
            rw [hrun2]
          · rw [List.length_append, hlen1, hlen2, List.length_cons]
            ring

/-- Every language iteration of the Streamlit engine that completes without an
exception appends at most one result (zero when the fetch fails at the network
layer). -/
theorem appProcessLang_le_one (net : Net) (now : Int) (vid mJ : Json) (strip : Bool)
    (lang : String) (rs1 : List App.Result) (calls : List Json)
    (h : App.processLang net now vid mJ strip lang = Except.ok (rs1, calls)) :
    rs1.length ≤ 1 := by
  unfold App.processLang at h
  cases hA : asPyList mJ with
  | error e => rw [hA] at h; simp [bind, Except.bind] at h
  | ok ms =>
  rw [hA] at h
  simp only [bind, Except.bind] at h
  cases hF : exceptFilter (fun m => App.mediaMatches m lang) ms with
  | error e => rw [hF] at h; simp at h
  | ok matching =>
  rw [hF] at h
  dsimp only at h
  cases matching with
  | nil =>
      simp only [Except.ok.injEq, Prod.mk.injEq] at h
      rw [← h.1]
      simp
  | cons m rest =>
  dsimp only at h
  unfold App.processDesc at h
  simp only [bind, Except.bind] at h
  cases hU : pyGetD m "Url" Json.null with
  | error e => rw [hU] at h; simp at h
  | ok url =>
  rw [hU] at h
  dsimp only at h
  cases hE : pyGetD m "UrlExpire" (Json.num 0) with
  | error e => rw [hE] at h; simp at h
  | ok ue =>
  rw [hE] at h
  dsimp only at h
  cases hC : fetchCheck url ue now with
  | error e => rw [hC] at h; simp at h
  | ok b =>
  rw [hC] at h
  dsimp only at h
  cases b with
  | false =>
      simp only [Bool.false_eq_true, if_false, Except.ok.injEq, Prod.mk.injEq] at h
      rw [← h.1]
      simp
  | true =>
      cases hN : net url with
      | success body =>
          rw [hN] at h
          simp only [if_true, Except.ok.injEq, Prod.mk.injEq] at h
          rw [← h.1]
          simp
      | timeout =>
          rw [hN] at h
          simp only [if_true, Except.ok.injEq, Prod.mk.injEq] at h
          rw [← h.1]
          simp
      | httpError code =>
          rw [hN] at h
          simp only [if_true, Except.ok.injEq, Prod.mk.injEq] at h
          rw [← h.1]
          simp
      | netError msg =>
          rw [hN] at h
          simp only [if_true, Except.ok.injEq, Prod.mk.injEq] at h
          rw [← h.1]
          simp

/-- An exception-free CLI language loop produces exactly one result per requested
language, with no assumption on the network: a network failure still appends a
failure result in the CLI engine. -/
theorem cliLangLoop_length (net : Net) (now : Int) (vid sJ : Json)
    (strip append_mode : Bool) :
    ∀ (languages : List String) (rs : List CLI.Result) (calls : List Json),
      CLI.langLoop net now vid sJ strip append_mode languages = Except.ok (rs, calls) →
      rs.length = languages.length := by
  intro languages
  induction languages with
  | nil =>
      intro rs calls h
      simp only [CLI.langLoop, Except.ok.injEq, Prod.mk.injEq] at h
      rw [← h.1]
      rfl
  | cons lang rest ih =>
      intro rs calls h
      unfold CLI.langLoop at h
      cases hP : CLI.processLang net now vid sJ strip append_mode lang with
      | error e => rw [hP] at h; simp at h
      | ok pr =>
          obtain ⟨r, calls1⟩ := pr
          rw [hP] at h
          dsimp only at h
          cases hL : CLI.langLoop net now vid sJ strip append_mode rest with
          | error e2 =>
              obtain ⟨e2a, e2b⟩ := e2
              rw [hL] at h
              simp at h
          | ok pr2 =>
              obtain ⟨rs2, calls2⟩ := pr2
              rw [hL] at h
              dsimp only at h
              simp only [Except.ok.injEq, Prod.mk.injEq] at h
              rw [← h.1, List.length_cons, ih rs2 calls2 hL, List.length_cons]

/-- A successful CLI `try:` block is exactly a successful language loop over the
extracted subtitle descriptors. -/
theorem cliDownloadTry_langLoop (net : Net) (now : Int) (item : Json)
    (languages : List String) (strip append_mode : Bool)
    (out : List CLI.Result × List Json)
    (h : CLI.downloadTry net now item languages strip append_mode = Except.ok out) :
    ∃ vid sJ, CLI.langLoop net now vid sJ strip append_mode languages = Except.ok out := by
  unfold CLI.downloadTry at h
  cases h1 : CLI.resolve_video_id item with
  | error e => rw [h1] at h; simp [liftErr, bind, Except.bind] at h
  | ok vid =>
  rw [h1] at h
  simp only [liftErr, bind, Except.bind] at h
  cases h2 : pyGetD item "data" (Json.obj []) with
  | error e => rw [h2] at h; simp at h
  | ok data_content =>
  rw [h2] at h
  dsimp only at h
  cases h3 : pyGetD data_content "video" (Json.obj []) with
  | error e => rw [h3] at h; simp at h
  | ok video_content =>
  rw [h3] at h
  dsimp only at h
  cases h4 : pyGetD video_content "subtitleInfos" (Json.arr []) with
  | error e => rw [h4] at h; simp at h
  | ok subtitlesJ =>
  rw [h4] at h
  dsimp only at h
  exact ⟨vid, subtitlesJ, h⟩

/-- An exception-free CLI work item yields exactly one result per requested
language, under any network oracle. -/
theorem cliDownload_length (net : Net) (now : Int) (item : Json)
    (languages : List String) (strip append_mode : Bool)
    (rs : List CLI.Result) (calls : List Json)
    (hok : exceptIsOk (CLI.downloadTry net now item languages strip append_mode) = true)
    (h : CLI.download_subtitle net now item languages strip append_mode =
      Except.ok (rs, calls)) :
    rs.length = languages.length := by
  cases hT : CLI.downloadTry net now item languages strip append_mode with
  | error e => rw [hT] at hok; cases hok
  | ok out =>
      have hd : CLI.download_subtitle net now item languages strip append_mode =
          Except.ok out := by
        unfold CLI.download_subtitle
        rw [hT]
      rw [h] at hd
      obtain ⟨vid, sJ, hL⟩ := cliDownloadTry_langLoop net now item languages strip
        append_mode out hT
      have hout : out = (rs, calls) := (Except.ok.inj hd).symm
      rw [hout] at hL
      exact cliLangLoop_length net now vid sJ strip append_mode languages rs calls hL

/-- When no item raises an internal exception, a CLI run over `order` produces
`|order| × |languages|` results — for any network oracle. -/
theorem cliRunOrder_length (net : Net) (now : Int) (languages : List String)
    (strip append_mode : Bool) :
    ∀ order : List Json,
      (∀ item ∈ order,
        exceptIsOk (CLI.downloadTry net now item languages strip append_mode) = true) →
      ∃ rs, CLI.runOrder net now order languages strip append_mode = Except.ok rs ∧
        rs.length = order.length * languages.length := by
  intro order
  induction order with
  | nil => intro _; exact ⟨[], rfl, by simp⟩
  | cons item rest ih =>
      intro hall
      have hokI := hall item (List.mem_cons_self _ _)
      cases hT : CLI.downloadTry net now item languages strip append_mode with
      | error e => rw [hT] at hokI; cases hokI
      | ok out =>
          obtain ⟨rs2, hrun2, hlen2⟩ := ih (fun it hmem => hall it (List.mem_cons_of_mem _ hmem))
          obtain ⟨rs1, calls1⟩ := out
          have hd : CLI.download_subtitle net now item languages strip append_mode =
              Except.ok (rs1, calls1) := by
            unfold CLI.download_subtitle
            rw [hT]
          have hlen1 : rs1.length = languages.length :=
            cliDownload_length net now item languages strip append_mode rs1 calls1
              (by rw [hT]; rfl) hd
          refine ⟨rs1 ++ rs2, ?_, ?_⟩
          · unfold CLI.runOrder
            rw [hd]
            simp only [bind, Except.bind]
            rw [hrun2]
          · rw [List.length_append, hlen1, hlen2, List.length_cons]
            ring

/-- C1 counterexample: in the Streamlit engine, a run over one record and one
language in which the single fetch times out produces an empty result list — the
(record, language) work unit is silently dropped, so the count is 0, not
min(1, limit) × 1 = 1. -/
theorem workunit_count_cex :
    App.runOrder timeoutNet 10 [recordEn] ["en"] false "subtitle" =
      Except.ok ([] : List App.Result) ∧
    ([] : List App.Result).length ≠ min 1 [recordEn].length * ["en"].length :=
  ⟨rfl, by decide⟩

/-- C1 amended: a (record, language) work unit yields at most one Result (in the
Streamlit engine zero when its fetch fails at the network layer; in the CLI engines
exactly one, a failure Result being appended on network errors).  At run level, the
CLI engines yield exactly min(limit, |records|) × |languages| Results whenever no
record raises an internal exception — under any network oracle and any completion
(arrival) order of the per-record batches; the Streamlit engine yields the same
count only when additionally every network fetch succeeds, since a network-layer
failure silently drops its unit's Result there, and in both engines an internal
exception collapses a record's units into one catch-all Result. -/
theorem workunit_result_count (net : Net) (now : Int) (items : List Json)
    (num_videos : Nat) (languages : List String) (strip append_mode : Bool)
    (find_type : String) (order : List Json) (vid mJ : Json) (lang : String) :
    (∀ rs1 calls, App.processLang net now vid mJ strip lang = Except.ok (rs1, calls) →
      rs1.length ≤ 1) ∧
    (List.Perm order (items.take num_videos) →
      (∀ item ∈ items.take num_videos,
        exceptIsOk (CLI.downloadTry net now item languages strip append_mode) = true) →
      ∃ rs, CLI.runOrder net now order languages strip append_mode = Except.ok rs ∧
        rs.length = min num_videos items.length * languages.length) ∧
    ((∀ u, (net u).isSuccess = true) →
      List.Perm order (items.take num_videos) →
      (∀ item ∈ items.take num_videos,
        exceptIsOk (App.downloadTry net now item languages strip find_type) = true) →
      ∃ rs, App.runOrder net now order languages strip find_type = Except.ok rs ∧
        rs.length = min num_videos items.length * languages.length) := by
  refine ⟨?_, ?_, ?_⟩
  · intro rs1 calls h
    exact appProcessLang_le_one net now vid mJ strip lang rs1 calls h
  · intro hperm hok
    obtain ⟨rs, hrun, hlen⟩ := cliRunOrder_length net now languages strip append_mode
      order (fun item hmem => hok item (hperm.mem_iff.mp hmem))
    refine ⟨rs, hrun, ?_⟩
    rw [hlen, hperm.length_eq, List.length_take]
  · intro hnet hperm hok
    obtain ⟨rs, hrun, hlen⟩ := appRunOrder_length net now languages strip find_type hnet
      order (fun item hmem => hok item (hperm.mem_iff.mp hmem))
    refine ⟨rs, hrun, ?_⟩
    rw [hlen, hperm.length_eq, List.length_take]

/-- C1 witness: the at-most-one clause on a timed-out Streamlit unit (zero results),
the CLI run count on a one-record run over an all-timeout network (still one result),
and the Streamlit run count on an all-success network. -/
theorem workunit_result_count_witness :
    ([] : List App.Result).length ≤ 1 ∧
    (∃ rs, CLI.runOrder timeoutNet 10 [recordEn] ["en"] false true = Except.ok rs ∧
      rs.length = min 1 [recordEn].length * ["en"].length) ∧
    (∃ rs, App.runOrder successNet 10 [recordEn] ["en"] false "subtitle" =
        Except.ok rs ∧
      rs.length = min 1 [recordEn].length * ["en"].length) :=
  ⟨(workunit_result_count timeoutNet 10 [recordEn] 1 ["en"] false true "subtitle"
      [recordEn] (Json.str "v1") (Json.arr [descEnA]) "en").1 [] [Json.str "http://ua"]
      rfl,
    (workunit_result_count timeoutNet 10 [recordEn] 1 ["en"] false true "subtitle"
      [recordEn] (Json.str "v1") (Json.arr [descEnA]) "en").2.1 (List.Perm.refl _)
      (by decide),
    (workunit_result_count successNet 10 [recordEn] 1 ["en"] false true "subtitle"
      [recordEn] (Json.str "v1") (Json.arr [descEnA]) "en").2.2 (fun u => rfl)
      (List.Perm.refl _) (by decide)⟩

/-- Under key-consistency, the CSV map's lookups are invariant under any permutation
of the result stream. -/
theorem csv_lookup_perm (rs rs2 : List App.Result) (hperm : List.Perm rs rs2)
    (hcons : App.csvConsistent rs) (vid : Json) (lang : String) :
    mapLookup2 (App.buildCsvMap rs) vid lang =
      mapLookup2 (App.buildCsvMap rs2) vid lang := by
  have h1 := foldl_lookup_lastP App.csvStep (App.csvKeyB vid lang) App.cellValue vid lang
    (fun m r => csvStep_lookup m r vid lang) rs []
  have h2 := foldl_lookup_lastP App.csvStep (App.csvKeyB vid lang) App.cellValue vid lang
    (fun m r => csvStep_lookup m r vid lang) rs2 []
  cases hf1 : findLastP (App.csvKeyB vid lang) rs with
  | none =>
      have hnone2 : findLastP (App.csvKeyB vid lang) rs2 = none := by
        rw [findLastP_eq_none]
        intro x hx
        exact (findLastP_eq_none _ rs).mp hf1 x (hperm.mem_iff.mpr hx)
      rw [App.buildCsvMap, h1, App.buildCsvMap, h2, hf1, hnone2]
  | some r1 =>
      obtain ⟨hm1, hk1⟩ := findLastP_some_mem _ rs r1 hf1
      cases hf2 : findLastP (App.csvKeyB vid lang) rs2 with
      | none =>
          exfalso
          have hh := (findLastP_eq_none _ rs2).mp hf2 r1 (hperm.mem_iff.mp hm1)
          rw [hk1] at hh
          cases hh
      | some r2 =>
          obtain ⟨hm2, hk2⟩ := findLastP_some_mem _ rs2 r2 hf2
          have hm2' : r2 ∈ rs := hperm.mem_iff.mpr hm2
          simp only [App.csvKeyB, Bool.and_eq_true, decide_eq_true_eq] at hk1 hk2
          have hcell : App.cellValue r1 = App.cellValue r2 :=
            hcons r1 hm1 r2 hm2' (by rw [hk1.1, hk2.1]) (by rw [hk1.2, hk2.2])
          rw [App.buildCsvMap, h1, App.buildCsvMap, h2, hf1, hf2]
          simp [hcell]

/-- The nested dict lookup of the CSV row loop equals `mapLookup2`. -/
theorem csv_cell_eq {V : Type} (m : List (Json × List (String × V))) (vid : Json)
    (lang : String) :
    pyDictGet? ((pyDictGet? m vid).getD []) lang = mapLookup2 m vid lang := by
  cases hm : pyDictGet? m vid <;> simp [mapLookup2, hm, pyDictGet?]

/-- CSV rows depend on the result stream only through the map's lookups. -/
theorem csvRowsGo_congr (languages : List String)
    (m1 m2 : List (Json × List (String × String)))
    (hmap : ∀ vid lang, mapLookup2 m1 vid lang = mapLookup2 m2 vid lang) :
    ∀ to_process : List Json,
      App.csvRowsGo m1 languages to_process = App.csvRowsGo m2 languages to_process := by
  intro to_process
  induction to_process with
  | nil => rfl
  | cons item rest ih =>
      unfold App.csvRowsGo
      cases hv : App.resolveVid item with
      | error e => rfl
      | ok vid =>
          simp only [bind, Except.bind]
          rw [ih]
          have hrow : languages.map (fun lang =>
              (pyDictGet? ((pyDictGet? m1 vid).getD []) lang).getD "") =
            languages.map (fun lang =>
              (pyDictGet? ((pyDictGet? m2 vid).getD []) lang).getD "") := by
            apply List.map_congr_left
            intro lang _
            rw [csv_cell_eq, csv_cell_eq, hmap]
          rw [hrow]

/-- Ensuring one level of a nested path only rewrites that key's entry. -/
theorem ensure_one_level (p : List String) (sub : List (String × Json)) (k : String)
    (r : Json) (h : App.ensure_nested_path (Json.obj sub) (k :: p) = Except.ok r) :
    ∃ V, r = Json.obj (pyDictSet sub k V) := by
  unfold App.ensure_nested_path at h
  dsimp only at h
  cases hk : pyDictGet? sub k with
  | none =>
      rw [hk] at h
      dsimp only at h
      cases he : App.ensure_nested_path (Json.obj []) p with
      | error e => rw [he] at h; simp [bind, Except.bind] at h
      | ok sub2 =>
          rw [he] at h
          simp only [bind, Except.bind, Except.ok.injEq] at h
          exact ⟨sub2, h.symm⟩
  | some j =>
      rw [hk] at h
      cases j with
      | obj s2 =>
          dsimp only at h
          cases he : App.ensure_nested_path (Json.obj s2) p with
          | error e => rw [he] at h; simp [bind, Except.bind] at h
          | ok sub2 =>
              rw [he] at h
              simp only [bind, Except.bind, Except.ok.injEq] at h
              exact ⟨sub2, h.symm⟩
      | null =>
          dsimp only at h
          cases he : App.ensure_nested_path (Json.obj []) p with
          | error e => rw [he] at h; simp [bind, Except.bind] at h
          | ok sub2 =>
              rw [he] at h
              simp only [bind, Except.bind, Except.ok.injEq] at h
              exact ⟨sub2, h.symm⟩
      | bool b =>
          dsimp only at h
          cases he : App.ensure_nested_path (Json.obj []) p with
          | error e => rw [he] at h; simp [bind, Except.bind] at h
          | ok sub2 =>
              rw [he] at h
              simp only [bind, Except.bind, Except.ok.injEq] at h
              exact ⟨sub2, h.symm⟩
      | num n =>
          dsimp only at h
          cases he : App.ensure_nested_path (Json.obj []) p with
          | error e => rw [he] at h; simp [bind, Except.bind] at h
          | ok sub2 =>
              rw [he] at h
              simp only [bind, Except.bind, Except.ok.injEq] at h
              exact ⟨sub2, h.symm⟩
      | str s =>
          dsimp only at h
          cases he : App.ensure_nested_path (Json.obj []) p with
          | error e => rw [he] at h; simp [bind, Except.bind] at h
          | ok sub2 =>
              rw [he] at h
              simp only [bind, Except.bind, Except.ok.injEq] at h
              exact ⟨sub2, h.symm⟩
      | arr xs =>
          dsimp only at h
          cases he : App.ensure_nested_path (Json.obj []) p with
          | error e => rw [he] at h; simp [bind, Except.bind] at h
          | ok sub2 =>
              rw [he] at h
              simp only [bind, Except.bind, Except.ok.injEq] at h
              exact ⟨sub2, h.symm⟩

/-- Ensuring `data.video....` rewrites the `data` entry to a dict whose `video` entry
was rewritten, keeping everything else. -/
theorem ensure_two_levels (p : List String) (es : List (String × Json)) (out : Json)
    (h : App.ensure_nested_path (Json.obj es) ("data" :: "video" :: p) = Except.ok out) :
    ∃ V, out = Json.obj (pyDictSet es "data" (Json.obj (pyDictSet
      (match pyDictGet? es "data" with
       | some (Json.obj X) => X
       | _ => ([] : List (String × Json))) "video" V))) := by
  unfold App.ensure_nested_path at h
  dsimp only at h
  cases hd : pyDictGet? es "data" with
  | none =>
      rw [hd] at h
      dsimp only at h
      cases he : App.ensure_nested_path (Json.obj []) ("video" :: p) with
      | error e => rw [he] at h; simp [bind, Except.bind] at h
      | ok sub2 =>
          rw [he] at h
          simp only [bind, Except.bind, Except.ok.injEq] at h
          obtain ⟨V, hV⟩ := ensure_one_level p [] "video" sub2 he
          exact ⟨V, by rw [← h, hV]⟩
  | some j =>
      rw [hd] at h
      cases j with
      | obj X =>
          dsimp only at h
          cases he : App.ensure_nested_path (Json.obj X) ("video" :: p) with
          | error e => rw [he] at h; simp [bind, Except.bind] at h
          | ok sub2 =>
              rw [he] at h
              simp only [bind, Except.bind, Except.ok.injEq] at h
              obtain ⟨V, hV⟩ := ensure_one_level p X "video" sub2 he
              exact ⟨V, by rw [← h, hV]⟩
      | null =>
          dsimp only at h
          cases he : App.ensure_nested_path (Json.obj []) ("video" :: p) with
          | error e => rw [he] at h; simp [bind, Except.bind] at h
          | ok sub2 =>
              rw [he] at h
              simp only [bind, Except.bind, Except.ok.injEq] at h
              obtain ⟨V, hV⟩ := ensure_one_level p [] "video" sub2 he
              exact ⟨V, by rw [← h, hV]⟩
      | bool b =>
          dsimp only at h
          cases he : App.ensure_nested_path (Json.obj []) ("video" :: p) with
          | error e => rw [he] at h; simp [bind, Except.bind] at h
          | ok sub2 =>
              rw [he] at h
              simp only [bind, Except.bind, Except.ok.injEq] at h
              obtain ⟨V, hV⟩ := ensure_one_level p [] "video" sub2 he
              exact ⟨V, by rw [← h, hV]⟩
      | num n =>
          dsimp only at h
          cases he : App.ensure_nested_path (Json.obj []) ("video" :: p) with
          | error e => rw [he] at h; simp [bind, Except.bind] at h
          | ok sub2 =>
              rw [he] at h
              simp only [bind, Except.bind, Except.ok.injEq] at h
              obtain ⟨V, hV⟩ := ensure_one_level p [] "video" sub2 he
              exact ⟨V, by rw [← h, hV]⟩
      | str s =>
          dsimp only at h
          cases he : App.ensure_nested_path (Json.obj []) ("video" :: p) with
          | error e => rw [he] at h; simp [bind, Except.bind] at h
          | ok sub2 =>
              rw [he] at h
              simp only [bind, Except.bind, Except.ok.injEq] at h
              obtain ⟨V, hV⟩ := ensure_one_level p [] "video" sub2 he
              exact ⟨V, by rw [← h, hV]⟩
      | arr xs =>
          dsimp only at h
          cases he : App.ensure_nested_path (Json.obj []) ("video" :: p) with
          | error e => rw [he] at h; simp [bind, Except.bind] at h
          | ok sub2 =>
              rw [he] at h
              simp only [bind, Except.bind, Except.ok.injEq] at h
              obtain ⟨V, hV⟩ := ensure_one_level p [] "video" sub2 he
              exact ⟨V, by rw [← h, hV]⟩

/-- A nested assignment with at least two keys left subscripts the first key and
rewrites its entry. -/
theorem setNested_structure (k k2 : String) (ks : List String) (v : Json)
    (es : List (String × Json)) (out : Json)
    (h : App.setNestedPath (Json.obj es) (k :: k2 :: ks) v = Except.ok out) :
    ∃ sub sub2, pyDictGet? es k = some sub ∧
      App.setNestedPath sub (k2 :: ks) v = Except.ok sub2 ∧
      out = Json.obj (pyDictSet es k sub2) := by
  unfold App.setNestedPath at h
  dsimp only at h
  cases hk : pyDictGet? es k with
  | none => rw [hk] at h; simp at h
  | some sub =>
      rw [hk] at h
      dsimp only at h
      cases hs : App.setNestedPath sub (k2 :: ks) v with
      | error e => rw [hs] at h; simp [bind, Except.bind] at h
      | ok sub2 =>
          rw [hs] at h
          simp only [bind, Except.bind, Except.ok.injEq] at h
          exact ⟨sub, sub2, rfl, hs, h.symm⟩

/-- A nested assignment at its last key writes that key. -/
theorem setNested_last (key : String) (v : Json) (es : List (String × Json)) (out : Json)
    (h : App.setNestedPath (Json.obj es) [key] v = Except.ok out) :
    out = Json.obj (pyDictSet es key v) := by
  unfold App.setNestedPath at h
  dsimp only at h
  simp only [Except.ok.injEq] at h
  exact h.symm

/-- One `item[data][video]... = v` assignment rewrites only `data`, and inside it
only `video`. -/
theorem setNested_two_levels (p : List String) (v : Json) (es ds : List (String × Json))
    (x : Json) (hdata : pyDictGet? es "data" = some (Json.obj ds))
    (_hvid : pyDictGet? ds "video" = some x) (out : Json)
    (h : App.setNestedPath (Json.obj es) ("data" :: "video" :: p) v = Except.ok out) :
    ∃ x2, out = Json.obj (pyDictSet es "data" (Json.obj (pyDictSet ds "video" x2))) := by
  obtain ⟨sub, sub2, hget, hset, hout⟩ := setNested_structure "data" "video" p v es out h
  rw [hdata] at hget
  have hsub : sub = Json.obj ds := (Option.some.inj hget).symm
  subst hsub
  cases p with
  | nil =>
      have hlast := setNested_last "video" v ds sub2 hset
      exact ⟨v, by rw [hout, hlast]⟩
  | cons q qs =>
      obtain ⟨sx, sx2, hgx, hsx, hox⟩ := setNested_structure "video" q qs v ds sub2 hset
      exact ⟨sx2, by rw [hout, hox]⟩

/-- `d.get(key, dflt)` on a dict value, as an equation. -/
theorem pyGetD_obj (entries : List (String × Json)) (key : String) (dflt : Json) :
    pyGetD (Json.obj entries) key dflt = Except.ok ((pyDictGet? entries key).getD dflt) := by
  unfold pyGetD
  cases h : pyDictGet? entries key <;> simp [h]

/-- Folding the language insertions over a well-shaped record only rewrites the
`video` entry inside `data`, so the identity fields survive. -/
theorem setFold_id (κ : Type) (f : κ → List String) (g : κ → Json) :
    ∀ (kvs : List κ) (es ds : List (String × Json)),
      pyDictGet? es "data" = some (Json.obj ds) →
      (pyDictGet? ds "video").isSome = true →
      ∀ out, List.foldlM (fun it kv =>
          App.setNestedPath it ("data" :: "video" :: f kv) (g kv))
          (Json.obj es) kvs = Except.ok out →
      ∃ es2 ds2, out = Json.obj es2 ∧
        pyDictGet? es2 "data" = some (Json.obj ds2) ∧
        pyDictGet? ds2 "item_id" = pyDictGet? ds "item_id" ∧
        pyDictGet? ds2 "id" = pyDictGet? ds "id" := by
  intro kvs
  induction kvs with
  | nil =>
      intro es ds hdata _hvid out h
      simp only [List.foldlM_nil, pure, Except.pure, Except.ok.injEq] at h
      exact ⟨es, ds, h.symm, hdata, rfl, rfl⟩
  | cons kv rest ih =>
      intro es ds hdata hvid out h
      rw [List.foldlM_cons] at h
      cases hstep : App.setNestedPath (Json.obj es) ("data" :: "video" :: f kv)
          (g kv) with
      | error e => rw [hstep] at h; simp [bind, Except.bind] at h
      | ok it1 =>
          rw [hstep] at h
          simp only [bind, Except.bind] at h
          obtain ⟨x, hx⟩ := Option.isSome_iff_exists.mp hvid
          obtain ⟨x2, hit1⟩ := setNested_two_levels (f kv) (g kv) es ds x hdata hx
            it1 hstep
          subst hit1
          have hdata2 : pyDictGet? (pyDictSet es "data" (Json.obj (pyDictSet ds "video" x2)))
              "data" = some (Json.obj (pyDictSet ds "video" x2)) := by
            rw [pyDictGet?_set]
            simp
          have hvid2 : (pyDictGet? (pyDictSet ds "video" x2) "video").isSome = true := by
            rw [pyDictGet?_set]
            simp
          obtain ⟨es2, ds2, hout, hd2, hi2, hid2⟩ := ih _ _ hdata2 hvid2 out h
          refine ⟨es2, ds2, hout, hd2, ?_, ?_⟩
          · rw [hi2, pyDictGet?_set]
            simp
          · rw [hid2, pyDictGet?_set]
            simp

/-- One NDJSON merge line keeps the record's resolved identity unchanged. -/
theorem mergeItem_id (find_type : String) (vm : List (Json × List (String × String)))
    (item out : Json) (h : App.mergeItem find_type vm item = Except.ok out) :
    App.resolveVid out = App.resolveVid item := by
  unfold App.mergeItem at h
  cases hv : App.resolveVid item with
  | error e => rw [hv] at h; simp [bind, Except.bind] at h
  | ok vid =>
  rw [hv] at h
  simp only [bind, Except.bind] at h
  -- the record must be a dict whose data entry behaves like a dict
  cases item with
  | null => exact absurd hv (by simp [App.resolveVid, pyGetD, bind, Except.bind])
  | bool b => exact absurd hv (by simp [App.resolveVid, pyGetD, bind, Except.bind])
  | num n => exact absurd hv (by simp [App.resolveVid, pyGetD, bind, Except.bind])
  | str s => exact absurd hv (by simp [App.resolveVid, pyGetD, bind, Except.bind])
  | arr xs => exact absurd hv (by simp [App.resolveVid, pyGetD, bind, Except.bind])
  | obj es =>
  have hdc : ∃ dc : List (String × Json),
      (match pyDictGet? es "data" with
       | some (Json.obj X) => X
       | _ => ([] : List (String × Json))) = dc ∧
      App.resolveVid (Json.obj es) =
        Except.ok ((pyDictGet? dc "item_id").getD ((pyDictGet? dc "id").getD
          (Json.str "unknown"))) := by
    cases hd : pyDictGet? es "data" with
    | none =>
        refine ⟨[], by simp [hd], ?_⟩
        unfold App.resolveVid
        rw [pyGetD_obj, hd]
        simp [pyGetD_obj, pyDictGet?, bind, Except.bind]
    | some j =>
        cases j with
        | obj dc =>
            refine ⟨dc, by simp [hd], ?_⟩
            unfold App.resolveVid
            rw [pyGetD_obj, hd]
            simp [pyGetD_obj, bind, Except.bind]
        | null =>
            exfalso
            unfold App.resolveVid at hv
            rw [pyGetD_obj, hd] at hv
            simp [pyGetD, bind, Except.bind] at hv
        | bool b =>
            exfalso
            unfold App.resolveVid at hv
            rw [pyGetD_obj, hd] at hv
            simp [pyGetD, bind, Except.bind] at hv
        | num n =>
            exfalso
            unfold App.resolveVid at hv
            rw [pyGetD_obj, hd] at hv
            simp [pyGetD, bind, Except.bind] at hv
        | str s =>
            exfalso
            unfold App.resolveVid at hv
            rw [pyGetD_obj, hd] at hv
            simp [pyGetD, bind, Except.bind] at hv
        | arr xs =>
            exfalso
            unfold App.resolveVid at hv
            rw [pyGetD_obj, hd] at hv
            simp [pyGetD, bind, Except.bind] at hv
  obtain ⟨dc, hdc_eq, hform⟩ := hdc
  by_cases hft : pyStrLower find_type = "caption"
  · rw [if_pos hft] at h
    cases hens : App.ensure_nested_path (Json.obj es)
        ["data", "video", "claInfo", "caption"] with
    | error e => rw [hens] at h; simp [bind, Except.bind] at h
    | ok item1 =>
        rw [hens] at h
        dsimp only at h
        obtain ⟨V, hitem1⟩ := ensure_two_levels ["claInfo", "caption"] es item1 hens
        rw [hdc_eq] at hitem1
        subst hitem1
        obtain ⟨es2, ds2, hout, hd2, hi2, hid2⟩ :=
          setFold_id (String × String) (fun kv => ["claInfo", "caption", kv.1])
            (fun kv => Json.str kv.2)
            ((pyDictGet? vm vid).getD [])
            (pyDictSet es "data" (Json.obj (pyDictSet dc "video" V)))
            (pyDictSet dc "video" V)
            (by rw [pyDictGet?_set]; simp)
            (by rw [pyDictGet?_set]; simp) out h
        subst hout
        have hvform : vid = (pyDictGet? dc "item_id").getD ((pyDictGet? dc "id").getD
            (Json.str "unknown")) := by
          rw [hv] at hform
          exact Except.ok.inj hform
        simp only [App.resolveVid, pyGetD_obj, hd2, Option.getD_some, bind, Except.bind,
          hi2, hid2, pyDictGet?_set]
        simp [hvform]
  · rw [if_neg hft] at h
    cases hens : App.ensure_nested_path (Json.obj es) ["data", "video", "subtitle"] with
    | error e => rw [hens] at h; simp [bind, Except.bind] at h
    | ok item1 =>
        rw [hens] at h
        dsimp only at h
        obtain ⟨V, hitem1⟩ := ensure_two_levels ["subtitle"] es item1 hens
        rw [hdc_eq] at hitem1
        subst hitem1
        obtain ⟨es2, ds2, hout, hd2, hi2, hid2⟩ :=
          setFold_id (String × String) (fun kv => ["subtitle", kv.1])
            (fun kv => Json.str kv.2)
            ((pyDictGet? vm vid).getD [])
            (pyDictSet es "data" (Json.obj (pyDictSet dc "video" V)))
            (pyDictSet dc "video" V)
            (by rw [pyDictGet?_set]; simp)
            (by rw [pyDictGet?_set]; simp) out h
        subst hout
        have hvform : vid = (pyDictGet? dc "item_id").getD ((pyDictGet? dc "id").getD
            (Json.str "unknown")) := by
          rw [hv] at hform
          exact Except.ok.inj hform
        simp only [App.resolveVid, pyGetD_obj, hd2, Option.getD_some, bind, Except.bind,
          hi2, hid2, pyDictGet?_set]
        simp [hvform]

/-- Merging preserves the identity sequence of the emitted records. -/
theorem ndjsonRecords_ids (find_type : String) (vm : List (Json × List (String × String))) :
    ∀ (to_process recs : List Json),
      to_process.mapM (App.mergeItem find_type vm) = Except.ok recs →
      recs.map App.resolveVid = to_process.map App.resolveVid := by
  intro to_process
  induction to_process with
  | nil =>
      intro recs h
      simp only [List.mapM_nil, pure, Except.pure, Except.ok.injEq] at h
      rw [← h]
  | cons item rest ih =>
      intro recs h
      rw [List.mapM_cons] at h
      cases hm : App.mergeItem find_type vm item with
      | error e => rw [hm] at h; simp [bind, Except.bind] at h
      | ok out =>
          rw [hm] at h
          simp only [bind, Except.bind] at h
          cases hr : rest.mapM (App.mergeItem find_type vm) with
          | error e => rw [hr] at h; simp at h
          | ok rs2 =>
              rw [hr] at h
              simp only [pure, Except.pure, Except.ok.injEq] at h
              rw [← h]
              simp only [List.map_cons]
              rw [mergeItem_id find_type vm item out hm, ih rs2 hr]

/-- Effect of one Standalone CSV-map step on one (identity, language) key: the same
insert as the subs_toolkit.py append map. -/
theorem standalone_csvMapStep_lookup (m : List (Json × List (String × Option String)))
    (r : CLI.Result) (vid : Json) (lang : String) :
    mapLookup2 (Standalone.csvMapStep m r) vid lang =
      if CLI.keyB vid lang r then some (CLI.cellValue r)
      else mapLookup2 m vid lang := by
  simp only [Standalone.csvMapStep]
  cases hl : r.language with
  | none => simp [CLI.keyB, hl, mapLookup2_ensureVid]
  | some l =>
      simp only [mapLookup2]
      by_cases hid : r.id = vid
      · rw [pyDictGet?_set, if_pos hid, ensureVid_get_self]
        simp only [Option.some_bind, Option.getD_some]
        rw [pyDictGet?_set]
        by_cases hlang : l = lang
        · have hkey : CLI.keyB vid lang r = true := by
            simp [CLI.keyB, hl, hid, hlang]
          simp [hlang, hkey, CLI.cellValue]
        · have hkey : CLI.keyB vid lang r = false := by
            simp [CLI.keyB, hl, hlang]
          simp only [hkey, Bool.false_eq_true, if_false, if_neg hlang]
          rw [← hid]
          cases hm : pyDictGet? m r.id <;> simp [hm, pyDictGet?]
      · have hkey : CLI.keyB vid lang r = false := by
          simp [CLI.keyB, hid]
        rw [pyDictGet?_set, if_neg hid]
        simp only [hkey, Bool.false_eq_true, if_false]
        have h2 := mapLookup2_ensureVid m r.id vid lang
        simpa [mapLookup2] using h2

/-- Under key-consistency, the Standalone CSV map's lookups are invariant under any
permutation of the result stream. -/
theorem standalone_csv_lookup_perm (rs rs2 : List CLI.Result)
    (hperm : List.Perm rs rs2) (hcons : CLI.videoMapConsistent rs)
    (vid : Json) (lang : String) :
    mapLookup2 (Standalone.buildCsvMap rs) vid lang =
      mapLookup2 (Standalone.buildCsvMap rs2) vid lang := by
  have h1 := foldl_lookup_lastP Standalone.csvMapStep (CLI.keyB vid lang) CLI.cellValue
    vid lang (fun m r => standalone_csvMapStep_lookup m r vid lang) rs []
  have h2 := foldl_lookup_lastP Standalone.csvMapStep (CLI.keyB vid lang) CLI.cellValue
    vid lang (fun m r => standalone_csvMapStep_lookup m r vid lang) rs2 []
  cases hf1 : findLastP (CLI.keyB vid lang) rs with
  | none =>
      have hnone2 : findLastP (CLI.keyB vid lang) rs2 = none := by
        rw [findLastP_eq_none]
        intro x hx
        exact (findLastP_eq_none _ rs).mp hf1 x (hperm.mem_iff.mpr hx)
      rw [Standalone.buildCsvMap, h1, Standalone.buildCsvMap, h2, hf1, hnone2]
  | some r1 =>
      obtain ⟨hm1, hk1⟩ := findLastP_some_mem _ rs r1 hf1
      cases hf2 : findLastP (CLI.keyB vid lang) rs2 with
      | none =>
          exfalso
          have hh := (findLastP_eq_none _ rs2).mp hf2 r1 (hperm.mem_iff.mp hm1)
          rw [hk1] at hh
          cases hh
      | some r2 =>
          obtain ⟨hm2, hk2⟩ := findLastP_some_mem _ rs2 r2 hf2
          have hm2a : r2 ∈ rs := hperm.mem_iff.mpr hm2
          simp only [CLI.keyB, Bool.and_eq_true, decide_eq_true_eq] at hk1 hk2
          have hcell : CLI.cellValue r1 = CLI.cellValue r2 :=
            hcons r1 hm1 r2 hm2a (by rw [hk1.1, hk2.1]) (by rw [hk1.2, hk2.2])
          rw [Standalone.buildCsvMap, h1, Standalone.buildCsvMap, h2, hf1, hf2]
          simp [hcell]

/-- Standalone CSV rows depend on the result stream only through the map's lookups. -/
theorem standalone_csvRowsGo_congr (languages : List String)
    (m1 m2 : List (Json × List (String × Option String)))
    (hmap : ∀ vid lang, mapLookup2 m1 vid lang = mapLookup2 m2 vid lang) :
    ∀ to_process : List Json,
      Standalone.csvRowsGo m1 languages to_process =
        Standalone.csvRowsGo m2 languages to_process := by
  intro to_process
  induction to_process with
  | nil => rfl
  | cons item rest ih =>
      unfold Standalone.csvRowsGo
      cases hv : CLI.resolve_video_id item with
      | error e => rfl
      | ok vid =>
          simp only [bind, Except.bind]
          rw [ih]
          have hrow : languages.map (fun lang =>
              (pyDictGet? ((pyDictGet? m1 vid).getD []) lang).getD (some "")) =
            languages.map (fun lang =>
              (pyDictGet? ((pyDictGet? m2 vid).getD []) lang).getD (some "")) := by
            apply List.map_congr_left
            intro lang _
            rw [csv_cell_eq, csv_cell_eq, hmap]
          rw [hrow]

/-- The CLI double-get id resolution coincides with the Streamlit single-variable
form: both read the same "data" entry. -/
theorem resolve_video_id_eq (item : Json) :
    CLI.resolve_video_id item = App.resolveVid item := by
  unfold CLI.resolve_video_id App.resolveVid
  cases h : pyGetD item "data" (Json.obj []) <;> simp [h, bind, Except.bind]

/-- One Standalone NDJSON merge line keeps the record's resolved identity
unchanged. -/
theorem standalone_mergeItem_id (vm : List (Json × List (String × Option String)))
    (item out : Json) (h : Standalone.mergeItem vm item = Except.ok out) :
    CLI.resolve_video_id out = CLI.resolve_video_id item := by
  rw [resolve_video_id_eq, resolve_video_id_eq]
  unfold Standalone.mergeItem at h
  rw [resolve_video_id_eq] at h
  cases hv : App.resolveVid item with
  | error e => rw [hv] at h; simp [bind, Except.bind] at h
  | ok vid =>
  rw [hv] at h
  simp only [bind, Except.bind] at h
  cases item with
  | null => exact absurd hv (by simp [App.resolveVid, pyGetD, bind, Except.bind])
  | bool b => exact absurd hv (by simp [App.resolveVid, pyGetD, bind, Except.bind])
  | num n => exact absurd hv (by simp [App.resolveVid, pyGetD, bind, Except.bind])
  | str s => exact absurd hv (by simp [App.resolveVid, pyGetD, bind, Except.bind])
  | arr xs => exact absurd hv (by simp [App.resolveVid, pyGetD, bind, Except.bind])
  | obj es =>
  have hdc : ∃ dc : List (String × Json),
      (match pyDictGet? es "data" with
       | some (Json.obj X) => X
       | _ => ([] : List (String × Json))) = dc ∧
      App.resolveVid (Json.obj es) =
        Except.ok ((pyDictGet? dc "item_id").getD ((pyDictGet? dc "id").getD
          (Json.str "unknown"))) := by
    cases hd : pyDictGet? es "data" with
    | none =>
        refine ⟨[], by simp [hd], ?_⟩
        unfold App.resolveVid
        rw [pyGetD_obj, hd]
        simp [pyGetD_obj, pyDictGet?, bind, Except.bind]
    | some j =>
        cases j with
        | obj dc =>
            refine ⟨dc, by simp [hd], ?_⟩
            unfold App.resolveVid
            rw [pyGetD_obj, hd]
            simp [pyGetD_obj, bind, Except.bind]
        | null =>
            exfalso
            unfold App.resolveVid at hv
            rw [pyGetD_obj, hd] at hv
            simp [pyGetD, bind, Except.bind] at hv
        | bool b =>
            exfalso
            unfold App.resolveVid at hv
            rw [pyGetD_obj, hd] at hv
            simp [pyGetD, bind, Except.bind] at hv
        | num n =>
            exfalso
            unfold App.resolveVid at hv
            rw [pyGetD_obj, hd] at hv
            simp [pyGetD, bind, Except.bind] at hv
        | str s =>
            exfalso
            unfold App.resolveVid at hv
            rw [pyGetD_obj, hd] at hv
            simp [pyGetD, bind, Except.bind] at hv
        | arr xs =>
            exfalso
            unfold App.resolveVid at hv
            rw [pyGetD_obj, hd] at hv
            simp [pyGetD, bind, Except.bind] at hv
  obtain ⟨dc, hdc_eq, hform⟩ := hdc
  cases hens : App.ensure_nested_path (Json.obj es) ["data", "video", "subtitle"] with
  | error e => rw [hens] at h; simp [bind, Except.bind] at h
  | ok item1 =>
      rw [hens] at h
      dsimp only at h
      obtain ⟨V, hitem1⟩ := ensure_two_levels ["subtitle"] es item1 hens
      rw [hdc_eq] at hitem1
      subst hitem1
      obtain ⟨es2, ds2, hout, hd2, hi2, hid2⟩ :=
        setFold_id (String × Option String) (fun kv => ["subtitle", kv.1])
          (fun kv => Standalone.jsonOfContent kv.2)
          ((pyDictGet? vm vid).getD [])
          (pyDictSet es "data" (Json.obj (pyDictSet dc "video" V)))
          (pyDictSet dc "video" V)
          (by rw [pyDictGet?_set]; simp)
          (by rw [pyDictGet?_set]; simp) out h
      subst hout
      have hvform : vid = (pyDictGet? dc "item_id").getD ((pyDictGet? dc "id").getD
          (Json.str "unknown")) := by
        rw [hv] at hform
        exact Except.ok.inj hform
      simp only [App.resolveVid, pyGetD_obj, hd2, Option.getD_some, bind, Except.bind,
        hi2, hid2, pyDictGet?_set]
      simp [hvform]

/-- Standalone merging preserves the identity sequence of the emitted records. -/
theorem standalone_ndjsonRecords_ids (vm : List (Json × List (String × Option String))) :
    ∀ (to_process recs : List Json),
      to_process.mapM (Standalone.mergeItem vm) = Except.ok recs →
      recs.map CLI.resolve_video_id = to_process.map CLI.resolve_video_id := by
  intro to_process
  induction to_process with
  | nil =>
      intro recs h
      simp only [List.mapM_nil, pure, Except.pure, Except.ok.injEq] at h
      rw [← h]
  | cons item rest ih =>
      intro recs h
      rw [List.mapM_cons] at h
      cases hm : Standalone.mergeItem vm item with
      | error e => rw [hm] at h; simp [bind, Except.bind] at h
      | ok out =>
          rw [hm] at h
          simp only [bind, Except.bind] at h
          cases hr : rest.mapM (Standalone.mergeItem vm) with
          | error e => rw [hr] at h; simp at h
          | ok rs2 =>
              rw [hr] at h
              simp only [pure, Except.pure, Except.ok.injEq] at h
              rw [← h]
              simp only [List.map_cons]
              rw [standalone_mergeItem_id vm item out hm, ih rs2 hr]

/-- C2 amended: in both truncation-aware engines (the Streamlit app and the
Python-Standalone toolkit), given that no two Results carry the same (identity,
language) key with different cell values, the CSV rows are identical across any two
arrival orders of the Result stream, one row per truncated record in input order with
columns in requested-language order; and the merged NDJSON output always emits one
record per truncated input record with the input's identity sequence preserved, in
input order (its within-record language-field order, however, follows Result arrival
order and is not byte-identical across permutations). -/
theorem output_order_invariance (items : List Json) (num_videos : Nat)
    (languages : List String) (find_type : String)
    (rsA rsA2 : List App.Result) (rsC rsC2 : List CLI.Result) :
    (List.Perm rsA rsA2 → App.csvConsistent rsA →
      App.csvRows (items.take num_videos) languages rsA =
        App.csvRows (items.take num_videos) languages rsA2) ∧
    (∀ recs, App.ndjsonRecords (items.take num_videos) find_type rsA = Except.ok recs →
      recs.map App.resolveVid = (items.take num_videos).map App.resolveVid) ∧
    (List.Perm rsC rsC2 → CLI.videoMapConsistent rsC →
      Standalone.csvRows (items.take num_videos) languages rsC =
        Standalone.csvRows (items.take num_videos) languages rsC2) ∧
    (∀ recs, Standalone.ndjsonRecords (items.take num_videos) rsC = Except.ok recs →
      recs.map CLI.resolve_video_id =
        (items.take num_videos).map CLI.resolve_video_id) := by
  refine ⟨?_, ?_, ?_, ?_⟩
  · intro hperm hcons
    unfold App.csvRows
    exact csvRowsGo_congr languages _ _
      (fun vid lang => csv_lookup_perm rsA rsA2 hperm hcons vid lang) _
  · intro recs h
    unfold App.ndjsonRecords at h
    exact ndjsonRecords_ids find_type (App.buildNdjsonMap rsA) (items.take num_videos)
      recs h
  · intro hperm hcons
    unfold Standalone.csvRows
    exact standalone_csvRowsGo_congr languages _ _
      (fun vid lang => standalone_csv_lookup_perm rsC rsC2 hperm hcons vid lang) _
  · intro recs h
    unfold Standalone.ndjsonRecords at h
    exact standalone_ndjsonRecords_ids (Standalone.buildNdjsonMap rsC)
      (items.take num_videos) recs h

/-- C2 counterexample: in both engines, a real sequential run over two records
sharing the identity "dup" produces two Results whose arrival order changes both the
CSV rows and the merged NDJSON records; and even with distinct keys, permuting a
two-language Result stream reorders the inserted language fields of the merged
record. -/
theorem output_order_invariance_cex :
    App.runOrder successNet 10 [recordDupA, recordDupB] ["en"] false "subtitle" =
      Except.ok [⟨Json.str "dup", some "en", true, none, "AAA", some "vtt"⟩,
        ⟨Json.str "dup", some "en", true, none, "BBB", some "vtt"⟩] ∧
    List.Perm
      [(⟨Json.str "dup", some "en", true, none, "BBB", some "vtt"⟩ : App.Result),
        ⟨Json.str "dup", some "en", true, none, "AAA", some "vtt"⟩]
      [⟨Json.str "dup", some "en", true, none, "AAA", some "vtt"⟩,
        ⟨Json.str "dup", some "en", true, none, "BBB", some "vtt"⟩] ∧
    (App.csvRows [recordDupA, recordDupB] ["en"]
        [⟨Json.str "dup", some "en", true, none, "AAA", some "vtt"⟩,
          ⟨Json.str "dup", some "en", true, none, "BBB", some "vtt"⟩]).toOption ≠
      (App.csvRows [recordDupA, recordDupB] ["en"]
        [⟨Json.str "dup", some "en", true, none, "BBB", some "vtt"⟩,
          ⟨Json.str "dup", some "en", true, none, "AAA", some "vtt"⟩]).toOption ∧
    (App.ndjsonRecords [recordDupA, recordDupB] "subtitle"
        [⟨Json.str "dup", some "en", true, none, "AAA", some "vtt"⟩,
          ⟨Json.str "dup", some "en", true, none, "BBB", some "vtt"⟩]).toOption ≠
      (App.ndjsonRecords [recordDupA, recordDupB] "subtitle"
        [⟨Json.str "dup", some "en", true, none, "BBB", some "vtt"⟩,
          ⟨Json.str "dup", some "en", true, none, "AAA", some "vtt"⟩]).toOption ∧
    App.runOrder successNet 10 [recordEnFr] ["en", "fr"] false "subtitle" =
      Except.ok [⟨Json.str "v1", some "en", true, none, "AAA", some "vtt"⟩,
        ⟨Json.str "v1", some "fr", true, none, "BBB", some "vtt"⟩] ∧
    (App.ndjsonRecords [recordEnFr] "subtitle"
        [⟨Json.str "v1", some "en", true, none, "AAA", some "vtt"⟩,
          ⟨Json.str "v1", some "fr", true, none, "BBB", some "vtt"⟩]).toOption ≠
      (App.ndjsonRecords [recordEnFr] "subtitle"
        [⟨Json.str "v1", some "fr", true, none, "BBB", some "vtt"⟩,
          ⟨Json.str "v1", some "en", true, none, "AAA", some "vtt"⟩]).toOption ∧
    CLI.runOrder successNet 10 [recordDupA, recordDupB] ["en"] false true =
      Except.ok [⟨Json.str "dup", some "en", true, none, some "AAA"⟩,
        ⟨Json.str "dup", some "en", true, none, some "BBB"⟩] ∧
    (Standalone.csvRows [recordDupA, recordDupB] ["en"]
        [⟨Json.str "dup", some "en", true, none, some "AAA"⟩,
          ⟨Json.str "dup", some "en", true, none, some "BBB"⟩]).toOption ≠
      (Standalone.csvRows [recordDupA, recordDupB] ["en"]
        [⟨Json.str "dup", some "en", true, none, some "BBB"⟩,
          ⟨Json.str "dup", some "en", true, none, some "AAA"⟩]).toOption ∧
    (Standalone.ndjsonRecords [recordEnFr]
        [⟨Json.str "v1", some "en", true, none, some "AAA"⟩,
          ⟨Json.str "v1", some "fr", true, none, some "BBB"⟩]).toOption ≠
      (Standalone.ndjsonRecords [recordEnFr]
        [⟨Json.str "v1", some "fr", true, none, some "BBB"⟩,
          ⟨Json.str "v1", some "en", true, none, some "AAA"⟩]).toOption :=
  ⟨rfl, by decide, by decide, by decide, rfl, by decide, rfl, by decide, by decide⟩

/-- C2 witness: all four conjuncts of the amended statement evaluated on one record
with two languages and its two possible arrival orders, in each engine. -/
theorem output_order_invariance_witness :
    (App.csvRows ([recordEnFr].take 1) ["en", "fr"]
        [⟨Json.str "v1", some "en", true, none, "AAA", some "vtt"⟩,
          ⟨Json.str "v1", some "fr", true, none, "BBB", some "vtt"⟩] =
      App.csvRows ([recordEnFr].take 1) ["en", "fr"]
        [⟨Json.str "v1", some "fr", true, none, "BBB", some "vtt"⟩,
          ⟨Json.str "v1", some "en", true, none, "AAA", some "vtt"⟩]) ∧
    (∀ recs, App.ndjsonRecords ([recordEnFr].take 1) "subtitle"
        [⟨Json.str "v1", some "en", true, none, "AAA", some "vtt"⟩,
          ⟨Json.str "v1", some "fr", true, none, "BBB", some "vtt"⟩] = Except.ok recs →
      recs.map App.resolveVid = ([recordEnFr].take 1).map App.resolveVid) ∧
    (Standalone.csvRows ([recordEnFr].take 1) ["en", "fr"]
        [⟨Json.str "v1", some "en", true, none, some "AAA"⟩,
          ⟨Json.str "v1", some "fr", true, none, some "BBB"⟩] =
      Standalone.csvRows ([recordEnFr].take 1) ["en", "fr"]
        [⟨Json.str "v1", some "fr", true, none, some "BBB"⟩,
          ⟨Json.str "v1", some "en", true, none, some "AAA"⟩]) ∧
    (∀ recs, Standalone.ndjsonRecords ([recordEnFr].take 1)
        [⟨Json.str "v1", some "en", true, none, some "AAA"⟩,
          ⟨Json.str "v1", some "fr", true, none, some "BBB"⟩] = Except.ok recs →
      recs.map CLI.resolve_video_id = ([recordEnFr].take 1).map CLI.resolve_video_id) :=
  have h := output_order_invariance [recordEnFr] 1 ["en", "fr"] "subtitle"
    [⟨Json.str "v1", some "en", true, none, "AAA", some "vtt"⟩,
      ⟨Json.str "v1", some "fr", true, none, "BBB", some "vtt"⟩]
    [⟨Json.str "v1", some "fr", true, none, "BBB", some "vtt"⟩,
      ⟨Json.str "v1", some "en", true, none, "AAA", some "vtt"⟩]
    [⟨Json.str "v1", some "en", true, none, some "AAA"⟩,
      ⟨Json.str "v1", some "fr", true, none, some "BBB"⟩]
    [⟨Json.str "v1", some "fr", true, none, some "BBB"⟩,
      ⟨Json.str "v1", some "en", true, none, some "AAA"⟩]
  ⟨h.1 (by decide) (by unfold App.csvConsistent; decide),
    h.2.1,
    h.2.2.1 (by decide) (by unfold CLI.videoMapConsistent; decide),
    h.2.2.2⟩
